import Mathlib

/-!
Verification development for the LPEL runtime sources.

The first part embeds the top-level LPEL module (configuration checking,
initialisation, CPU-set construction and thread-to-core assignment) from
the main module source.  The second part embeds the monitoring sidecar
(dirty stream lists, dispatch trace lines).

External effects are made explicit: syscall results (number of cores,
capability query, affinity success) are parameters, monitor file output is
returned as a list of bytes.
-/

namespace Lpel

/-! ## Configuration, error codes and flags -/

/-- Modelled from the spec: the header lpel.h is not under src; the spec
lists the error codes as OK=0, ERR_FAIL, ERR_INVAL, ERR_ASSIGN, ERR_EXCL.
The claims need only that the codes are pairwise distinct and nonzero. -/
def LPEL_ERR_FAIL : Int := 1

/-- Modelled from the spec: error code for an invalid configuration. -/
def LPEL_ERR_INVAL : Int := 2

/-- Modelled from the spec: error code for a failed affinity assignment. -/
def LPEL_ERR_ASSIGN : Int := 3

/-- Modelled from the spec: error code for a denied scheduling elevation. -/
def LPEL_ERR_EXCL : Int := 4

/-- Modelled from the spec: the header lpel.h is not under src; the spec
describes flags as a bitset with recognized flags PINNED and EXCLUSIVE,
so they are modelled as distinct single bits. -/
def LPEL_FLAG_PINNED : Nat := 1

/-- Modelled from the spec: the EXCLUSIVE configuration flag bit. -/
def LPEL_FLAG_EXCLUSIVE : Nat := 2

/-- Configuration record, after lpel_config_t: num_workers, proc_workers,
proc_others are C ints, flags is a bitset, node is passed through. -/
structure lpel_config_t where
  num_workers : Int
  proc_workers : Int
  proc_others : Int
  flags : Nat
  node : Int
deriving DecidableEq

/-- The macro LPEL_ICFG(f): tests whether all bits of f are set in the
stored configuration flags, i.e. (cfg.flags AND f) == f. -/
def LPEL_ICFG (cfg : lpel_config_t) (f : Nat) : Prop :=
  cfg.flags &&& f = f

instance (cfg : lpel_config_t) (f : Nat) : Decidable (LPEL_ICFG cfg f) := by
  unfold LPEL_ICFG; infer_instance

/-- External system facts queried by the module: the sysconf core count
(none models a failing query, as in LpelGetNumCores returning ERR_FAIL)
and the capability query (none models LpelCanSetExclusive returning
ERR_FAIL, some b models a successful query reporting b). -/
structure SysEnv where
  num_cores : Option Int
  can_excl : Option Bool
deriving DecidableEq

/-- CheckConfig from the main module: sanity checks on worker counts,
the core-count check when the core count is available, and the
EXCLUSIVE-implies-PINNED and capability checks. -/
def CheckConfig (cfg : lpel_config_t) (env : SysEnv) : Int :=
  if cfg.num_workers ≤ 0 ∨ cfg.proc_workers ≤ 0 then LPEL_ERR_INVAL
  else if cfg.proc_others < 0 then LPEL_ERR_INVAL
  else if (match env.num_cores with
           | some pa => decide (cfg.proc_workers + cfg.proc_others > pa)
           | none => false) then LPEL_ERR_INVAL
  else if LPEL_ICFG cfg LPEL_FLAG_EXCLUSIVE then
    if ¬ LPEL_ICFG cfg LPEL_FLAG_PINNED then LPEL_ERR_INVAL
    else match env.can_excl with
         | some false => LPEL_ERR_EXCL
         | _ => 0
  else 0

/-- The integer interval [a, b) as a list, used for the CPU sets built by
CreateCpusets with CPU_ZERO and CPU_SET loops. -/
def cpusetRange (a b : Int) : List Int :=
  (List.range (b - a).toNat).map (fun i => a + i)

/-- Module-wide state touched by LpelInit: the stored configuration copy,
the two CPU sets, and whether worker initialisation and spawning ran. -/
structure LpelState where
  global_config : lpel_config_t
  cpuset_workers : List Int
  cpuset_others : List Int
  workers_inited : Bool
  workers_spawned : Bool
deriving DecidableEq

/-- LpelInit from the main module: stores a copy of the configuration,
checks it, and only on success builds the CPU sets (CreateCpusets) and
initialises and spawns the workers.  Returns the error code with the
resulting module state. -/
def LpelInit (cfg : lpel_config_t) (env : SysEnv) (s : LpelState) : Int × LpelState :=
  let s1 := { s with global_config := cfg }
  let res := CheckConfig cfg env
  if res ≠ 0 then (res, s1)
  else
    let ws := cpusetRange 0 cfg.proc_workers
    let os := if cfg.proc_others = 0 then cpusetRange 0 cfg.proc_workers
              else cpusetRange cfg.proc_workers (cfg.proc_workers + cfg.proc_others)
    (0, { global_config := cfg, cpuset_workers := ws, cpuset_others := os,
          workers_inited := true, workers_spawned := true })

/-- The affinity set passed to sched_setaffinity by LpelThreadAssign. -/
inductive AffinityTarget where
  | othersSet
  | workersSet
  | single (cpu : Int)
deriving DecidableEq

/-- Observable outcome of LpelThreadAssign: the return code, the affinity
set requested from the kernel (if any), and whether the
sched_setscheduler call (real-time FIFO elevation) was attempted. -/
structure AssignOutcome where
  ret : Int
  affinity : Option AffinityTarget
  setsched_attempted : Bool
deriving DecidableEq

/-- LpelThreadAssign from the main module.  The parameter affinityOk is
the outcome of the sched_setaffinity syscall.  For a worker core the
PINNED branch pins to the single CPU core mod proc_workers; afterwards
the source guards the sched_setscheduler call by
LPEL_ICFG(cfg flags AND LPEL_FLAG_EXCLUSIVE), which is transcribed
literally (the macro argument is itself already masked). -/
def LpelThreadAssign (cfg : lpel_config_t) (core : Int) (affinityOk : Bool) : AssignOutcome :=
  if core = -1 then
    if affinityOk then ⟨0, some AffinityTarget.othersSet, false⟩
    else ⟨LPEL_ERR_ASSIGN, some AffinityTarget.othersSet, false⟩
  else
    if LPEL_ICFG cfg LPEL_FLAG_PINNED then
      let tgt := AffinityTarget.single (core % cfg.proc_workers)
      if affinityOk then
        if cfg.flags &&& (cfg.flags &&& LPEL_FLAG_EXCLUSIVE) = cfg.flags &&& LPEL_FLAG_EXCLUSIVE then
          ⟨0, some tgt, true⟩
        else ⟨0, some tgt, false⟩
      else ⟨LPEL_ERR_ASSIGN, some tgt, false⟩
    else
      if affinityOk then ⟨0, some AffinityTarget.workersSet, false⟩
      else ⟨LPEL_ERR_ASSIGN, some AffinityTarget.workersSet, false⟩

/-! ## Concrete configurations, environments and states used as inputs -/

/-- A configuration with only the PINNED flag set. -/
def cfgPinnedOnly : lpel_config_t := ⟨1, 1, 0, LPEL_FLAG_PINNED, 0⟩

/-- A valid configuration with no flags set. -/
def cfgPlain : lpel_config_t := ⟨1, 1, 0, 0, 0⟩

/-- An invalid configuration: num_workers is zero. -/
def cfgBadWorkers : lpel_config_t := ⟨0, 1, 0, 0, 0⟩

/-- A PINNED configuration with more workers than worker processors. -/
def cfg4w2p : lpel_config_t := ⟨4, 2, 0, LPEL_FLAG_PINNED, 0⟩

/-- A configuration with only the EXCLUSIVE flag set. -/
def cfgExclOnly : lpel_config_t := ⟨1, 1, 0, LPEL_FLAG_EXCLUSIVE, 0⟩

/-- An invalid configuration (num_workers zero) with EXCLUSIVE and PINNED set. -/
def cfgExclPinBad : lpel_config_t :=
  ⟨0, 1, 0, LPEL_FLAG_EXCLUSIVE ||| LPEL_FLAG_PINNED, 0⟩

/-- A valid configuration with EXCLUSIVE and PINNED set. -/
def cfgExclPin : lpel_config_t :=
  ⟨1, 1, 0, LPEL_FLAG_EXCLUSIVE ||| LPEL_FLAG_PINNED, 0⟩

/-- A configuration asking for more processors than available under envSmall. -/
def cfgTooManyProcs : lpel_config_t := ⟨1, 8, 8, 0, 0⟩

/-- A system with 8 cores and the elevation capability. -/
def envSmall : SysEnv := ⟨some 8, some true⟩

/-- A system with 8 cores and without the elevation capability. -/
def envNoCap : SysEnv := ⟨some 8, some false⟩

/-- A fresh module state before any initialisation. -/
def s0 : LpelState := ⟨cfgPlain, [], [], false, false⟩

/-! ## Claims C1 to C6 -/

/-- Double-masking identity behind the ThreadAssign guard: for any flag
word f and mask e, (f AND (f AND e)) equals (f AND e), so the macro test
LPEL_ICFG(flags AND e) holds for every configuration. -/
theorem double_mask_always (f e : Nat) : f &&& (f &&& e) = f &&& e := by
  rw [← Nat.and_assoc, Nat.and_self]

/-- C1: the claim states that the sched_setscheduler branch of
LpelThreadAssign is taken if and only if LPEL_FLAG_EXCLUSIVE is among the
configured flags.  The code instead guards the branch with
LPEL_ICFG(flags AND EXCLUSIVE), which always holds, so on a configuration
with PINNED set and EXCLUSIVE clear (accepted by CheckConfig) the branch
is still attempted: the code contradicts the documented intent. -/
theorem C1_bug_eval :
    ¬ LPEL_ICFG cfgPinnedOnly LPEL_FLAG_EXCLUSIVE ∧
    CheckConfig cfgPinnedOnly envSmall = 0 ∧
    (LpelThreadAssign cfgPinnedOnly 0 true).setsched_attempted = true := by
  decide

/-- C2 counterexample: the claim states that a failed LpelInit mutates no
module state, but LpelInit stores a copy of the argument configuration
before validating it, so the module-wide stored configuration changes
even when the configuration is rejected. -/
theorem C2_counterexample :
    (LpelInit cfgBadWorkers envSmall s0).1 ≠ 0 ∧
    (LpelInit cfgBadWorkers envSmall s0).2.global_config ≠ s0.global_config := by
  decide

/-- C2 (amended): when LpelInit rejects the configuration, the CPU sets
and the worker structures are unchanged, but the module-wide stored
configuration has already been overwritten with the caller configuration. -/
theorem C2_amended_no_mutation (cfg : lpel_config_t) (env : SysEnv) (s : LpelState)
    (h : (LpelInit cfg env s).1 ≠ 0) :
    (LpelInit cfg env s).2.cpuset_workers = s.cpuset_workers ∧
    (LpelInit cfg env s).2.cpuset_others = s.cpuset_others ∧
    (LpelInit cfg env s).2.workers_inited = s.workers_inited ∧
    (LpelInit cfg env s).2.workers_spawned = s.workers_spawned ∧
    (LpelInit cfg env s).2.global_config = cfg := by
  by_cases hc : CheckConfig cfg env = 0
  · exfalso; apply h; simp [LpelInit, hc]
  · simp [LpelInit, hc]

/-- Witness for the amended C2 at a concrete rejected configuration. -/
theorem C2_amended_no_mutation_witness :
    (LpelInit cfgBadWorkers envSmall s0).1 ≠ 0 ∧
    ((LpelInit cfgBadWorkers envSmall s0).2.cpuset_workers = s0.cpuset_workers ∧
     (LpelInit cfgBadWorkers envSmall s0).2.cpuset_others = s0.cpuset_others ∧
     (LpelInit cfgBadWorkers envSmall s0).2.workers_inited = s0.workers_inited ∧
     (LpelInit cfgBadWorkers envSmall s0).2.workers_spawned = s0.workers_spawned ∧
     (LpelInit cfgBadWorkers envSmall s0).2.global_config = cfgBadWorkers) :=
  ⟨by decide, C2_amended_no_mutation cfgBadWorkers envSmall s0 (by decide)⟩

/-- C3 counterexample: the claim states that with PINNED set every worker
core argument in range is pinned to exactly the CPU with that number.
The code pins to core mod proc_workers, and CheckConfig accepts
configurations with num_workers greater than proc_workers (the check was
commented out), so core 2 of a 4-worker, 2-processor configuration is
pinned to CPU 0, not CPU 2, and collides with core 0. -/
theorem C3_counterexample :
    CheckConfig cfg4w2p envSmall = 0 ∧
    LPEL_ICFG cfg4w2p LPEL_FLAG_PINNED ∧
    (0 : Int) ≤ 2 ∧ (2 : Int) < cfg4w2p.num_workers ∧
    (LpelThreadAssign cfg4w2p 2 true).affinity = some (AffinityTarget.single 0) ∧
    (LpelThreadAssign cfg4w2p 0 true).affinity = some (AffinityTarget.single 0) ∧
    AffinityTarget.single 0 ≠ AffinityTarget.single 2 := by
  decide

/-- C3 (amended): with PINNED set and 0 <= core < num_workers the calling
thread is pinned to the single CPU core mod proc_workers, which equals
core exactly when core < proc_workers; the return value is ERR_ASSIGN
precisely when the affinity syscall fails and 0 otherwise. -/
theorem C3_amended_pinned (cfg : lpel_config_t) (core : Int) (ok : Bool)
    (hp : LPEL_ICFG cfg LPEL_FLAG_PINNED)
    (h0 : 0 ≤ core) (hn : core < cfg.num_workers) :
    (LpelThreadAssign cfg core ok).affinity =
      some (AffinityTarget.single (core % cfg.proc_workers)) ∧
    (LpelThreadAssign cfg core ok).ret = (if ok then 0 else LPEL_ERR_ASSIGN) ∧
    (core < cfg.proc_workers →
      (LpelThreadAssign cfg core ok).affinity = some (AffinityTarget.single core)) := by
  have hne : ¬ core = -1 := by omega
  have hmod : core < cfg.proc_workers → core % cfg.proc_workers = core :=
    fun hlt => Int.emod_eq_of_lt h0 hlt
  have haff : (LpelThreadAssign cfg core ok).affinity =
      some (AffinityTarget.single (core % cfg.proc_workers)) := by
    cases ok <;>
      by_cases hd : cfg.flags &&& (cfg.flags &&& LPEL_FLAG_EXCLUSIVE) =
          cfg.flags &&& LPEL_FLAG_EXCLUSIVE <;>
        simp [LpelThreadAssign, hne, hp, hd]
  refine ⟨haff, ?_, fun hlt => by rw [haff, hmod hlt]⟩
  cases ok <;>
    by_cases hd : cfg.flags &&& (cfg.flags &&& LPEL_FLAG_EXCLUSIVE) =
        cfg.flags &&& LPEL_FLAG_EXCLUSIVE <;>
      simp [LpelThreadAssign, hne, hp, hd]

/-- Witness for the amended C3 at a concrete pinned configuration. -/
theorem C3_amended_pinned_witness :
    (LPEL_ICFG cfg4w2p LPEL_FLAG_PINNED ∧ (0 : Int) ≤ 1 ∧ (1 : Int) < cfg4w2p.num_workers) ∧
    ((LpelThreadAssign cfg4w2p 1 true).affinity =
      some (AffinityTarget.single (1 % cfg4w2p.proc_workers)) ∧
    (LpelThreadAssign cfg4w2p 1 true).ret = (if true then 0 else LPEL_ERR_ASSIGN) ∧
    ((1 : Int) < cfg4w2p.proc_workers →
      (LpelThreadAssign cfg4w2p 1 true).affinity = some (AffinityTarget.single 1))) :=
  ⟨⟨by decide, by decide, by decide⟩,
   C3_amended_pinned cfg4w2p 1 true (by decide) (by decide) (by decide)⟩

/-- C4: a configuration with EXCLUSIVE set and PINNED not set is rejected
by LpelInit with ERR_INVAL, whatever the system environment and the prior
module state. -/
theorem C4_exclusive_requires_pinned (cfg : lpel_config_t) (env : SysEnv) (s : LpelState)
    (hex : LPEL_ICFG cfg LPEL_FLAG_EXCLUSIVE)
    (hpin : ¬ LPEL_ICFG cfg LPEL_FLAG_PINNED) :
    (LpelInit cfg env s).1 = LPEL_ERR_INVAL := by
  have hcc : CheckConfig cfg env = LPEL_ERR_INVAL := by
    unfold CheckConfig
    split_ifs <;> simp_all
  have hne : (LPEL_ERR_INVAL : Int) ≠ 0 := by decide
  simp [LpelInit, hcc, hne]

/-- Witness for C4 at a concrete EXCLUSIVE-without-PINNED configuration. -/
theorem C4_exclusive_requires_pinned_witness :
    (LPEL_ICFG cfgExclOnly LPEL_FLAG_EXCLUSIVE ∧ ¬ LPEL_ICFG cfgExclOnly LPEL_FLAG_PINNED) ∧
    (LpelInit cfgExclOnly envSmall s0).1 = LPEL_ERR_INVAL :=
  ⟨⟨by decide, by decide⟩,
   C4_exclusive_requires_pinned cfgExclOnly envSmall s0 (by decide) (by decide)⟩

/-- C5 counterexample: the claim quantifies over every configuration with
EXCLUSIVE and PINNED set, but a configuration that also fails the basic
sanity checks is rejected with ERR_INVAL before the capability check, so
LpelInit does not return ERR_EXCL on it even without the capability. -/
theorem C5_counterexample :
    LPEL_ICFG cfgExclPinBad LPEL_FLAG_EXCLUSIVE ∧
    LPEL_ICFG cfgExclPinBad LPEL_FLAG_PINNED ∧
    envNoCap.can_excl = some false ∧
    (LpelInit cfgExclPinBad envNoCap s0).1 = LPEL_ERR_INVAL ∧
    (LpelInit cfgExclPinBad envNoCap s0).1 ≠ LPEL_ERR_EXCL := by
  decide

/-- C5 (amended): for a configuration with EXCLUSIVE and PINNED set that
passes the sanity and core-count checks, when the capability query
succeeds and reports that the process lacks the scheduling-elevation
capability, LpelInit returns ERR_EXCL and neither initialises nor spawns
workers. -/
theorem C5_amended_excl_denied (cfg : lpel_config_t) (env : SysEnv) (s : LpelState)
    (hex : LPEL_ICFG cfg LPEL_FLAG_EXCLUSIVE)
    (hpin : LPEL_ICFG cfg LPEL_FLAG_PINNED)
    (hcap : env.can_excl = some false)
    (hw : 0 < cfg.num_workers) (hpw : 0 < cfg.proc_workers) (hpo : 0 ≤ cfg.proc_others)
    (hcores : ∀ pa, env.num_cores = some pa → cfg.proc_workers + cfg.proc_others ≤ pa) :
    (LpelInit cfg env s).1 = LPEL_ERR_EXCL ∧
    (LpelInit cfg env s).2.workers_inited = s.workers_inited ∧
    (LpelInit cfg env s).2.workers_spawned = s.workers_spawned := by
  have hcc : CheckConfig cfg env = LPEL_ERR_EXCL := by
    unfold CheckConfig
    rw [if_neg (by omega), if_neg (by omega)]
    have hcores3 : (match env.num_cores with
        | some pa => decide (cfg.proc_workers + cfg.proc_others > pa)
        | none => false) = false := by
      cases hnc : env.num_cores with
      | none => rfl
      | some pa =>
        have hle := hcores pa hnc
        simp only [decide_eq_false_iff_not]
        omega
    rw [if_neg (by simp [hcores3]), if_pos hex, if_neg (by simp [hpin]), hcap]
  have hne : (LPEL_ERR_EXCL : Int) ≠ 0 := by decide
  refine ⟨?_, ?_, ?_⟩ <;> simp [LpelInit, hcc, hne]

/-- Witness for the amended C5 at a concrete denied configuration. -/
theorem C5_amended_excl_denied_witness :
    (LPEL_ICFG cfgExclPin LPEL_FLAG_EXCLUSIVE ∧
     LPEL_ICFG cfgExclPin LPEL_FLAG_PINNED ∧
     envNoCap.can_excl = some false ∧
     (0 : Int) < cfgExclPin.num_workers ∧ (0 : Int) < cfgExclPin.proc_workers ∧
     (0 : Int) ≤ cfgExclPin.proc_others) ∧
    ((LpelInit cfgExclPin envNoCap s0).1 = LPEL_ERR_EXCL ∧
     (LpelInit cfgExclPin envNoCap s0).2.workers_inited = s0.workers_inited ∧
     (LpelInit cfgExclPin envNoCap s0).2.workers_spawned = s0.workers_spawned) :=
  ⟨⟨by decide, by decide, by decide, by decide, by decide, by decide⟩,
   C5_amended_excl_denied cfgExclPin envNoCap s0 (by decide) (by decide) (by decide)
     (by decide) (by decide) (by decide)
     (by intro pa hpa; simp [envNoCap] at hpa; subst hpa; decide)⟩

/-- C6: when the core count is available and proc_workers plus
proc_others exceeds it, LpelInit returns ERR_INVAL, whatever the prior
module state. -/
theorem C6_too_many_procs (cfg : lpel_config_t) (env : SysEnv) (s : LpelState) (pa : Int)
    (hc : env.num_cores = some pa)
    (hover : cfg.proc_workers + cfg.proc_others > pa) :
    (LpelInit cfg env s).1 = LPEL_ERR_INVAL := by
  have hcc : CheckConfig cfg env = LPEL_ERR_INVAL := by
    unfold CheckConfig
    split
    · rfl
    split
    · rfl
    rw [if_pos]
    rw [hc]
    simpa using hover
  have hne : (LPEL_ERR_INVAL : Int) ≠ 0 := by decide
  simp [LpelInit, hcc, hne]

/-- Witness for C6 at a concrete oversubscribed configuration. -/
theorem C6_too_many_procs_witness :
    (envSmall.num_cores = some 8 ∧
     cfgTooManyProcs.proc_workers + cfgTooManyProcs.proc_others > 8) ∧
    (LpelInit cfgTooManyProcs envSmall s0).1 = LPEL_ERR_INVAL :=
  ⟨⟨by decide, by decide⟩,
   C6_too_many_procs cfgTooManyProcs envSmall s0 8 (by decide) (by decide)⟩

/-! ## Monitoring sidecar: data model

The monitoring source keeps, per task, a dirty list of stream monitor
records threaded through a pointer field; the reserved non-null value
ST_DIRTY_END terminates the list and the null pointer marks a record as
not linked.  Pointers are modelled by an explicit type and the allocated
records by an association list keyed by allocation number. -/

/-- Pointer values taken by the dirty field of a stream monitor record:
the null pointer, the reserved end-of-list sentinel ST_DIRTY_END, or a
pointer to an allocated record. -/
inductive Ptr where
  | null
  | dirtyEnd
  | node (n : Nat)
deriving DecidableEq

/-- Timing value, after timing_t: seconds and nanoseconds. -/
structure timing_t where
  sec : Nat
  nsec : Nat
deriving DecidableEq

/-- Modelled from the spec: arch/timing.h is not under src; TimingDiff
yields the elapsed time between two timestamps as a timespec difference
with nanosecond borrow. -/
def TimingDiff (a b : timing_t) : timing_t :=
  if b.nsec < a.nsec then ⟨b.sec - a.sec - 1, b.nsec + 1000000000 - a.nsec⟩
  else ⟨b.sec - a.sec, b.nsec - a.nsec⟩

/-- Modelled from the spec: arch/timing.h is not under src; TimingAdd
adds two timespec values with nanosecond carry. -/
def TimingAdd (a b : timing_t) : timing_t :=
  if a.nsec + b.nsec < 1000000000 then ⟨a.sec + b.sec, a.nsec + b.nsec⟩
  else ⟨a.sec + b.sec + 1, a.nsec + b.nsec - 1000000000⟩

/-- The state letter of an in-use stream monitor record. -/
def ST_INUSE : Char := 'I'

/-- The state letter of a record opened during the current dispatch. -/
def ST_OPENED : Char := 'O'

/-- The state letter of a record closed during the current dispatch. -/
def ST_CLOSED : Char := 'C'

/-- The state letter of a record replaced during the current dispatch. -/
def ST_REPLACED : Char := 'R'

/-- Event flag bit: an item moved over the stream. -/
def ST_MOVED : Nat := 1

/-- Event flag bit: the task was woken by this stream. -/
def ST_WAKEUP : Nat := 2

/-- Event flag bit: the task blocked on this stream. -/
def ST_BLOCKON : Nat := 4

/-- Modelled from the spec: lpel.h is not under src; monitoring flag bit
asking for dispatch timing records. -/
def LPEL_MON_TASK_TIMES : Nat := 1

/-- Modelled from the spec: lpel.h is not under src; monitoring flag bit
asking for stream event records. -/
def LPEL_MON_TASK_STREAMS : Nat := 2

/-- Stream monitor record, after mon_stream_t: the owning task id (the
montask pointer), the dirty-list link, read or write mode, the IOCR
state, the stream id copy, the processed item counter and the event
flags. -/
structure mon_stream_t where
  montask : Nat
  dirty : Ptr
  mode : Char
  state : Char
  sid : Nat
  counter : Nat
  event_flags : Nat
deriving DecidableEq

/-- Task monitor record, after mon_task_t: name bytes, task id, flags,
dispatch counter, the four timing fields, the dirty-list head and the
block-reason letter. -/
structure mon_task_t where
  name : List Nat
  tid : Nat
  flags : Nat
  disp : Nat
  creat : timing_t
  start : timing_t
  stop : timing_t
  total : timing_t
  dirty_list : Ptr
  blockon : Char
deriving DecidableEq

/-- Worker monitoring context, after monctx_t (the output file is
modelled by returning the written bytes). -/
structure monctx_t where
  wid : Int
  disp : Nat
  wait_cnt : Nat
  wait_total : timing_t
  wait_current : timing_t
deriving DecidableEq

/-- The heap of allocated stream monitor records, keyed by allocation
number. -/
abbrev Heap := List (Nat × mon_stream_t)

/-- Look up an allocated record. -/
def hlookup : Heap → Nat → Option mon_stream_t
  | [], _ => none
  | (k, v) :: h, n => if k = n then some v else hlookup h n

/-- Overwrite the record at a key, leaving the heap unchanged when the
key is absent. -/
def hupdate : Heap → Nat → mon_stream_t → Heap
  | [], _, _ => []
  | (k, v) :: h, n, ms => if k = n then (k, ms) :: h else (k, v) :: hupdate h n ms

/-- Remove the record at a key (the model of free). -/
def herase : Heap → Nat → Heap
  | [], _ => []
  | (k, v) :: h, n => if k = n then h else (k, v) :: herase h n

/-- Combined monitoring state for one monitored task: the allocated
records, the task record, the worker context, and the next allocation
number. -/
structure MonState where
  heap : Heap
  task : mon_task_t
  ctx : monctx_t
  next : Nat
deriving DecidableEq

/-- MarkDirty from the monitoring source: a record is linked at the
front of the dirty list of its task only when its dirty link is still
null; otherwise nothing happens. -/
def MarkDirty (s : MonState) (n : Nat) : MonState :=
  match hlookup s.heap n with
  | none => s
  | some ms =>
    if ms.dirty = Ptr.null then
      { s with heap := hupdate s.heap n { ms with dirty := s.task.dirty_list },
               task := { s.task with dirty_list := Ptr.node n } }
    else s

/-- LpelMonStreamOpen: when stream monitoring is on, allocate a fresh
record in state Opened with clear flags and a null dirty link, and mark
it dirty. -/
def LpelMonStreamOpen (s : MonState) (sid : Nat) (mode : Char) : MonState :=
  if s.task.flags &&& LPEL_MON_TASK_STREAMS ≠ 0 then
    let n := s.next
    let ms : mon_stream_t := ⟨s.task.tid, Ptr.null, mode, ST_OPENED, sid, 0, 0⟩
    MarkDirty { s with heap := (n, ms) :: s.heap, next := n + 1 } n
  else s

/-- LpelMonStreamClose: set the state to Closed and mark dirty; the
record is kept until the dirty list is printed. -/
def LpelMonStreamClose (s : MonState) (n : Nat) : MonState :=
  match hlookup s.heap n with
  | none => s
  | some ms => MarkDirty { s with heap := hupdate s.heap n { ms with state := ST_CLOSED } } n

/-- LpelMonStreamReplace: set the state to Replaced, store the new
stream id, and mark dirty. -/
def LpelMonStreamReplace (s : MonState) (n : Nat) (newSid : Nat) : MonState :=
  match hlookup s.heap n with
  | none => s
  | some ms =>
    MarkDirty { s with heap := hupdate s.heap n { ms with state := ST_REPLACED, sid := newSid } } n

/-- LpelMonStreamMoved: bump the item counter, set the moved flag, and
mark dirty. -/
def LpelMonStreamMoved (s : MonState) (n : Nat) : MonState :=
  match hlookup s.heap n with
  | none => s
  | some ms =>
    let ms2 := { ms with counter := ms.counter + 1, event_flags := ms.event_flags ||| ST_MOVED }
    MarkDirty { s with heap := hupdate s.heap n ms2 } n

/-- LpelMonStreamBlockon: set the block-on flag, mark dirty, and record
in the task whether it blocked on input or output. -/
def LpelMonStreamBlockon (s : MonState) (n : Nat) : MonState :=
  match hlookup s.heap n with
  | none => s
  | some ms =>
    let ms2 := { ms with event_flags := ms.event_flags ||| ST_BLOCKON }
    let s1 := MarkDirty { s with heap := hupdate s.heap n ms2 } n
    if ms.mode = 'r' then { s1 with task := { s1.task with blockon := 'i' } }
    else if ms.mode = 'w' then { s1 with task := { s1.task with blockon := 'o' } }
    else s1

/-- LpelMonStreamWakeup: set the woken flag only; the source explicitly
does not mark the record dirty. -/
def LpelMonStreamWakeup (s : MonState) (n : Nat) : MonState :=
  match hlookup s.heap n with
  | none => s
  | some ms =>
    { s with heap := hupdate s.heap n { ms with event_flags := ms.event_flags ||| ST_WAKEUP } }

/-- One monitoring stream event, used to quantify over event sequences. -/
inductive MonEvent where
  | evOpen (sid : Nat) (mode : Char)
  | evClose (n : Nat)
  | evReplace (n : Nat) (sid : Nat)
  | evMoved (n : Nat)
  | evBlockon (n : Nat)
  | evWakeup (n : Nat)
deriving DecidableEq

/-- Apply one monitoring stream event. -/
def applyEvent (s : MonState) : MonEvent → MonState
  | MonEvent.evOpen sid mode => LpelMonStreamOpen s sid mode
  | MonEvent.evClose n => LpelMonStreamClose s n
  | MonEvent.evReplace n sid => LpelMonStreamReplace s n sid
  | MonEvent.evMoved n => LpelMonStreamMoved s n
  | MonEvent.evBlockon n => LpelMonStreamBlockon s n
  | MonEvent.evWakeup n => LpelMonStreamWakeup s n

/-- Apply a sequence of monitoring stream events. -/
def applyEvents (s : MonState) (evs : List MonEvent) : MonState :=
  evs.foldl applyEvent s

/-! ## Monitoring sidecar: trace output

File output is modelled as the list of written bytes.  Decimal rendering
of counters models the fprintf unsigned conversions. -/

/-- Decimal digits of a natural number, most significant first, with
explicit fuel (the fuel n+1 always suffices). -/
def natBytesAux : Nat → Nat → List Nat
  | 0, _ => []
  | fuel + 1, n => if n < 10 then [48 + n] else natBytesAux fuel (n / 10) ++ [48 + n % 10]

/-- Decimal rendering of a natural number as ASCII bytes. -/
def natBytes (n : Nat) : List Nat :=
  natBytesAux (n + 1) n

/-- Zero padding to six digits, as the 06 width of the fprintf format. -/
def pad6 (l : List Nat) : List Nat :=
  List.replicate (6 - l.length) 48 ++ l

/-- PrintTiming from the monitoring source: microseconds when under a
second, otherwise seconds followed by the six-digit microsecond rest;
both with a trailing space. -/
def printTiming (t : timing_t) : List Nat :=
  if t.sec = 0 then natBytes (t.nsec / 1000) ++ [32]
  else natBytes t.sec ++ pad6 (natBytes (t.nsec / 1000)) ++ [32]

/-- One printed dirty-list entry: the allocation number of the record it
came from (not itself printed; it identifies the record) and the printed
fields. -/
structure Entry where
  node : Nat
  sid : Nat
  mode : Char
  state : Char
  counter : Nat
  flagBlockon : Bool
  flagWakeup : Bool
  flagMoved : Bool
deriving DecidableEq

/-- The entry printed for a record, before its state transition. -/
def entryOf (n : Nat) (ms : mon_stream_t) : Entry :=
  ⟨n, ms.sid, ms.mode, ms.state, ms.counter,
   ms.event_flags &&& ST_BLOCKON != 0, ms.event_flags &&& ST_WAKEUP != 0,
   ms.event_flags &&& ST_MOVED != 0⟩

/-- Rendering of one dirty-list entry, after the format
sid,mode,state,counter,fff; where the flag letters are question mark,
exclamation mark and star, or dash when clear (bytes 63, 33, 42, 45);
44 is the comma and 59 the semicolon. -/
def entryBytes (e : Entry) : List Nat :=
  natBytes e.sid ++ [44, e.mode.toNat, 44, e.state.toNat, 44] ++ natBytes e.counter ++
    [44, if e.flagBlockon then 63 else 45, if e.flagWakeup then 33 else 45,
     if e.flagMoved then 42 else 45, 59]

/-- PrintDirtyList loop from the monitoring source: walk the dirty list
from a pointer until the sentinel, print each record, then transition
Opened and Replaced to InUse, reset the link and flags of surviving
records, and free Closed records.  The asserts of the source (all
records belong to the printed task, states are legal, the walk never
reaches a null link) are modelled by returning none. -/
def printDirtyAux (tid : Nat) (fuel : Nat) (h : Heap) (p : Ptr) :
    Option (Heap × List Entry) :=
  match p with
  | Ptr.dirtyEnd => some (h, [])
  | Ptr.null => none
  | Ptr.node n =>
    match fuel with
    | 0 => none
    | fuel + 1 =>
      match hlookup h n with
      | none => none
      | some ms =>
        if ms.montask ≠ tid then none
        else
          let e := entryOf n ms
          let nxt := ms.dirty
          if ms.state = ST_OPENED ∨ ms.state = ST_REPLACED ∨ ms.state = ST_INUSE then
            let ms2 := { ms with state := ST_INUSE, dirty := Ptr.null, event_flags := 0 }
            match printDirtyAux tid fuel (hupdate h n ms2) nxt with
            | none => none
            | some (h2, es) => some (h2, e :: es)
          else if ms.state = ST_CLOSED then
            match printDirtyAux tid fuel (herase h n) nxt with
            | none => none
            | some (h2, es) => some (h2, e :: es)
          else none

/-- PrintDirtyList on the monitoring state: drain the dirty list of the
task and reset its head to the sentinel. -/
def PrintDirtyList (s : MonState) : Option (MonState × List Entry) :=
  match printDirtyAux s.task.tid (s.heap.length + 1) s.heap s.task.dirty_list with
  | none => none
  | some (h2, es) =>
    some ({ s with heap := h2, task := { s.task with dirty_list := Ptr.dirtyEnd } }, es)

/-- Task state letters, after taskstate_t. -/
def TASK_CREATED : Char := 'C'

/-- Task state letter for a running task. -/
def TASK_RUNNING : Char := 'U'

/-- Task state letter for a ready task. -/
def TASK_READY : Char := 'R'

/-- Task state letter for a blocked task. -/
def TASK_BLOCKED : Char := 'B'

/-- Task state letter for a finished task. -/
def TASK_ZOMBIE : Char := 'Z'

/-- LpelMonTaskStart: record the dispatch start time when asked, reset
the block reason to any, and increment the dispatch counters of the task
and of the worker context. -/
def LpelMonTaskStart (s : MonState) (now : timing_t) : MonState :=
  let t1 := if s.task.flags &&& LPEL_MON_TASK_TIMES ≠ 0 then { s.task with start := now }
            else s.task
  { s with task := { t1 with blockon := 'a', disp := t1.disp + 1 },
           ctx := { s.ctx with disp := s.ctx.disp + 1 } }

/-- Bytes of the label disp with a trailing space. -/
def dispLabelBytes : List Nat :=
  List.map Char.toNat ['d', 'i', 's', 'p', ' ']

/-- Bytes of the label st with a trailing space. -/
def stLabelBytes : List Nat :=
  List.map Char.toNat ['s', 't', ' ']

/-- Bytes of the label et with a trailing space. -/
def etLabelBytes : List Nat :=
  List.map Char.toNat ['e', 't', ' ']

/-- Bytes of the label creat with a trailing space. -/
def creatLabelBytes : List Nat :=
  List.map Char.toNat ['c', 'r', 'e', 'a', 't', ' ']

/-- The task record after LpelMonTaskStop has updated its timing fields:
stop time is recorded and the execution time of the dispatch is added to
the total, when timing is on. -/
def stopTask (s : MonState) (now : timing_t) : mon_task_t :=
  if s.task.flags &&& LPEL_MON_TASK_TIMES ≠ 0 then
    { s.task with stop := now, total := TimingAdd s.task.total (TimingDiff s.task.start now) }
  else s.task

/-- The part of the trace line before the stream section: optional
normalised timestamp, task id, optional name, dispatch count, state
letter (with the block reason after B), optional execution and creation
times. -/
def stopHead (mbegin : timing_t) (s : MonState) (stateCh : Char) (now : timing_t) : List Nat :=
  (if s.task.flags &&& LPEL_MON_TASK_TIMES ≠ 0
    then printTiming (TimingDiff mbegin now) else []) ++
  natBytes s.task.tid ++ [32] ++
  (if s.task.name ≠ [] then s.task.name ++ [32] else []) ++
  dispLabelBytes ++ natBytes s.task.disp ++ [32] ++
  (if stateCh = TASK_BLOCKED then stLabelBytes ++ [66, s.task.blockon.toNat, 32]
   else stLabelBytes ++ [stateCh.toNat, 32]) ++
  (if s.task.flags &&& LPEL_MON_TASK_TIMES ≠ 0
   then etLabelBytes ++ printTiming (TimingDiff s.task.start now) ++
     (if stateCh = TASK_ZOMBIE then creatLabelBytes ++ printTiming s.task.creat else [])
   else [])

/-- LpelMonTaskStop: write one trace record: the head fragment, the
drained dirty list between brackets (bytes 91 and 93) when stream
monitoring is on, and a final newline (byte 10).  The printed entries
are also returned so that statements can speak about them. -/
def LpelMonTaskStop (mbegin : timing_t) (s : MonState) (stateCh : Char) (now : timing_t) :
    Option (MonState × List Entry × List Nat) :=
  let head := stopHead mbegin s stateCh now
  if s.task.flags &&& LPEL_MON_TASK_STREAMS ≠ 0 then
    match PrintDirtyList { s with task := stopTask s now } with
    | none => none
    | some (s2, es) =>
      some (s2, es, head ++ [91] ++ (es.map entryBytes).flatten ++ [93, 32] ++ [10])
  else some ({ s with task := stopTask s now }, [], head ++ [10])

/-- External inputs of one dispatch: the stream events between start and
stop, the two timestamps, and the task state at stop. -/
structure DispatchIn where
  events : List MonEvent
  startT : timing_t
  stopT : timing_t
  stopState : Char
deriving DecidableEq

/-- One dispatch of the monitored task: LpelMonTaskStart, the stream
events of the dispatch, then LpelMonTaskStop.  Besides the written
bytes, the dispatch count printed on the line is returned. -/
def dispatch (mbegin : timing_t) (s : MonState) (d : DispatchIn) :
    Option (MonState × Nat × List Nat) :=
  let s1 := LpelMonTaskStart s d.startT
  let s2 := applyEvents s1 d.events
  match LpelMonTaskStop mbegin s2 d.stopState d.stopT with
  | none => none
  | some (s3, _, out) => some (s3, s2.task.disp, out)

/-- A sequence of dispatches, collecting for each the printed dispatch
count and the written bytes. -/
def runDispatches (mbegin : timing_t) :
    MonState → List DispatchIn → Option (MonState × List (Nat × List Nat))
  | s, [] => some (s, [])
  | s, d :: ds =>
    match dispatch mbegin s d with
    | none => none
    | some (s2, k, out) =>
      match runDispatches mbegin s2 ds with
      | none => none
      | some (s3, rest) => some (s3, (k, out) :: rest)

/-! ## Monitoring sidecar: invariants -/

/-- The dirty list reachable from a pointer: the chain of allocation
numbers followed through the dirty links down to the sentinel. -/
inductive Represents (h : Heap) : Ptr → List Nat → Prop where
  | nil : Represents h Ptr.dirtyEnd []
  | cons {n : Nat} {ms : mon_stream_t} {l : List Nat} :
      hlookup h n = some ms → Represents h ms.dirty l →
      Represents h (Ptr.node n) (n :: l)

/-- Well-formedness of one allocated record with respect to the task id
and the allocation bound: it belongs to the task, its key is below the
bound, its state is one of IOCR and its mode is read or write. -/
@[reducible] def goodStream (tid nxt : Nat) (n : Nat) (ms : mon_stream_t) : Prop :=
  ms.montask = tid ∧ n < nxt ∧
  (ms.state = ST_INUSE ∨ ms.state = ST_OPENED ∨ ms.state = ST_CLOSED ∨
    ms.state = ST_REPLACED) ∧
  (ms.mode = 'r' ∨ ms.mode = 'w')

/-- Invariant of the monitoring state: allocation keys are distinct and
below the allocation bound, records are well formed, the block reason is
one of a, i, o, the name contains no newline byte, and the dirty list is
a duplicate-free chain such that a record has a non-null dirty link
exactly when it is on the chain. -/
@[reducible] def Inv (s : MonState) : Prop :=
  (s.heap.map Prod.fst).Nodup ∧
  (∀ n ms, hlookup s.heap n = some ms → goodStream s.task.tid s.next n ms) ∧
  (s.task.blockon = 'a' ∨ s.task.blockon = 'i' ∨ s.task.blockon = 'o') ∧
  10 ∉ s.task.name ∧
  ∃ l, Represents s.heap s.task.dirty_list l ∧ l.Nodup ∧
    (∀ n ms, hlookup s.heap n = some ms → (ms.dirty ≠ Ptr.null ↔ n ∈ l))

/-- Well-formed event input: an opened record has read or write mode (as
the source asserts in LpelMonStreamBlockon). -/
def evOK : MonEvent → Prop
  | MonEvent.evOpen _ mode => mode = 'r' ∨ mode = 'w'
  | _ => True

instance : DecidablePred evOK := fun e =>
  match e with
  | MonEvent.evOpen _ mode => inferInstanceAs (Decidable (mode = 'r' ∨ mode = 'w'))
  | MonEvent.evClose _ => inferInstanceAs (Decidable True)
  | MonEvent.evReplace _ _ => inferInstanceAs (Decidable True)
  | MonEvent.evMoved _ => inferInstanceAs (Decidable True)
  | MonEvent.evBlockon _ => inferInstanceAs (Decidable True)
  | MonEvent.evWakeup _ => inferInstanceAs (Decidable True)

/-- Legal task state letters at a dispatch stop, after taskstate_t. -/
def taskStateLegal (c : Char) : Prop :=
  c = TASK_CREATED ∨ c = TASK_RUNNING ∨ c = TASK_READY ∨ c = TASK_BLOCKED ∨
    c = TASK_ZOMBIE

instance : DecidablePred taskStateLegal := fun c => by
  unfold taskStateLegal; infer_instance

/-! ## Heap lemmas -/

theorem hlookup_mem {h : Heap} {n : Nat} {ms : mon_stream_t}
    (hl : hlookup h n = some ms) : n ∈ h.map Prod.fst := by
  induction h with
  | nil => simp [hlookup] at hl
  | cons kv h ih =>
    obtain ⟨k, v⟩ := kv
    simp only [hlookup] at hl
    by_cases hk : k = n
    · subst hk; simp
    · simp only [if_neg hk] at hl
      simp [ih hl]

theorem hlookup_not_mem {h : Heap} {n : Nat}
    (hn : n ∉ h.map Prod.fst) : hlookup h n = none := by
  induction h with
  | nil => rfl
  | cons kv h ih =>
    obtain ⟨k, v⟩ := kv
    simp only [List.map_cons, List.mem_cons] at hn
    push_neg at hn
    have hkn : ¬ k = n := fun hh => hn.1 hh.symm
    simp only [hlookup, if_neg hkn]
    exact ih hn.2

theorem hupdate_keys (h : Heap) (n : Nat) (ms : mon_stream_t) :
    (hupdate h n ms).map Prod.fst = h.map Prod.fst := by
  induction h with
  | nil => rfl
  | cons kv h ih =>
    obtain ⟨k, v⟩ := kv
    simp only [hupdate]
    by_cases hk : k = n
    · simp [hk]
    · simp [hk, ih]

theorem hlookup_hupdate_self {h : Heap} {n : Nat} {ms0 : mon_stream_t}
    (hl : hlookup h n = some ms0) (ms : mon_stream_t) :
    hlookup (hupdate h n ms) n = some ms := by
  induction h with
  | nil => simp [hlookup] at hl
  | cons kv h ih =>
    obtain ⟨k, v⟩ := kv
    simp only [hlookup, hupdate] at *
    by_cases hk : k = n
    · simp [hk, hlookup]
    · simp only [if_neg hk] at hl ⊢
      simp [hlookup, if_neg hk, ih hl]

theorem hlookup_hupdate_ne {m n : Nat} (h : Heap) (ms : mon_stream_t)
    (hne : m ≠ n) : hlookup (hupdate h n ms) m = hlookup h m := by
  induction h with
  | nil => rfl
  | cons kv h ih =>
    obtain ⟨k, v⟩ := kv
    simp only [hupdate]
    by_cases hk : k = n
    · subst hk
      have hkm : ¬ k = m := fun hh => hne hh.symm
      simp only [if_pos rfl, hlookup, if_neg hkm]
    · simp only [if_neg hk, hlookup]
      by_cases hm : k = m
      · simp [hm]
      · simp [hm, ih]

theorem herase_keys_sublist (h : Heap) (n : Nat) :
    ((herase h n).map Prod.fst).Sublist (h.map Prod.fst) := by
  induction h with
  | nil => simp [herase]
  | cons kv h ih =>
    obtain ⟨k, v⟩ := kv
    simp only [herase]
    by_cases hk : k = n
    · subst hk
      simp only [if_pos rfl, List.map_cons]
      exact List.sublist_cons_self _ _
    · simp only [if_neg hk, List.map_cons]
      exact List.Sublist.cons₂ _ ih

theorem hlookup_herase_ne {m n : Nat} (h : Heap)
    (hne : m ≠ n) : hlookup (herase h n) m = hlookup h m := by
  induction h with
  | nil => rfl
  | cons kv h ih =>
    obtain ⟨k, v⟩ := kv
    simp only [herase]
    by_cases hk : k = n
    · subst hk
      have hkm : ¬ k = m := fun hh => hne hh.symm
      simp only [eq_self_iff_true, if_true, hlookup, if_neg hkm]
    · simp only [if_neg hk, hlookup]
      by_cases hm : k = m
      · simp [hm]
      · simp [hm, ih]

theorem hlookup_herase_self {h : Heap} {n : Nat}
    (hk : (h.map Prod.fst).Nodup) : hlookup (herase h n) n = none := by
  induction h with
  | nil => rfl
  | cons kv h ih =>
    obtain ⟨k, v⟩ := kv
    simp only [List.map_cons, List.nodup_cons] at hk
    simp only [herase]
    by_cases hkn : k = n
    · subst hkn
      simp only [if_pos rfl]
      exact hlookup_not_mem hk.1
    · simp only [if_neg hkn, hlookup, if_neg hkn]
      exact ih hk.2

theorem hlookup_isSome_of_mem {h : Heap} {n : Nat} (hm : n ∈ h.map Prod.fst) :
    ∃ ms, hlookup h n = some ms := by
  induction h with
  | nil => simp at hm
  | cons kv h ih =>
    obtain ⟨k, v⟩ := kv
    by_cases hk : k = n
    · exact ⟨v, by simp [hlookup, hk]⟩
    · simp only [List.map_cons, List.mem_cons] at hm
      rcases hm with hm | hm
      · exact absurd hm.symm hk
      · obtain ⟨ms, hms⟩ := ih hm
        exact ⟨ms, by simp [hlookup, hk, hms]⟩

/-! ## Dirty chain lemmas -/

theorem Represents_ne_null {h : Heap} {p : Ptr} {l : List Nat}
    (hr : Represents h p l) : p ≠ Ptr.null := by
  cases hr <;> simp

theorem Represents_mem_lookup {h : Heap} {p : Ptr} {l : List Nat}
    (hr : Represents h p l) : ∀ n ∈ l, ∃ ms, hlookup h n = some ms := by
  induction hr with
  | nil => intro n hn; simp at hn
  | @cons m msm l' hlk hr ih =>
    intro q hq
    rcases List.mem_cons.mp hq with hq | hq
    · subst hq; exact ⟨msm, hlk⟩
    · exact ih q hq

theorem Represents_unique {h : Heap} {p : Ptr} {l1 l2 : List Nat}
    (h1 : Represents h p l1) (h2 : Represents h p l2) : l1 = l2 := by
  induction h1 generalizing l2 with
  | nil => cases h2; rfl
  | @cons m msm l' hlk hr ih =>
    cases h2 with
    | @cons _ msm2 l2' hlk2 hr2 =>
      have hmm : msm = msm2 := Option.some.inj (hlk.symm.trans hlk2)
      subst hmm
      rw [ih hr2]

theorem Represents_hupdate_not_mem {h : Heap} {p : Ptr} {l : List Nat} {n : Nat}
    (ms : mon_stream_t) (hr : Represents h p l) (hn : n ∉ l) :
    Represents (hupdate h n ms) p l := by
  induction hr with
  | nil => exact Represents.nil
  | @cons m msm l' hlk hr ih =>
    have hmn : m ≠ n := fun hh => hn (by rw [← hh]; exact List.mem_cons_self m l')
    refine Represents.cons ?_ (ih (fun hh => hn (List.mem_cons_of_mem m hh)))
    rw [hlookup_hupdate_ne h ms hmn]
    exact hlk

theorem Represents_hupdate_same_dirty {h : Heap} {n : Nat} {ms ms2 : mon_stream_t}
    (hlk : hlookup h n = some ms) (hd : ms2.dirty = ms.dirty) :
    ∀ {p : Ptr} {l : List Nat}, Represents h p l → Represents (hupdate h n ms2) p l := by
  intro p l hr
  induction hr with
  | nil => exact Represents.nil
  | @cons m msm l' hlkm hr ih =>
    by_cases hmn : m = n
    · have hmm : msm = ms := Option.some.inj ((hmn ▸ hlkm).symm.trans hlk)
      subst hmm
      rw [hmn]
      refine Represents.cons (hlookup_hupdate_self hlk ms2) ?_
      rw [hd]
      exact ih
    · exact Represents.cons (by rw [hlookup_hupdate_ne h ms2 hmn]; exact hlkm) ih

theorem Represents_cons_fresh {h : Heap} {n : Nat} (ms : mon_stream_t)
    (hfresh : hlookup h n = none) :
    ∀ {p : Ptr} {l : List Nat}, Represents h p l → Represents ((n, ms) :: h) p l := by
  intro p l hr
  induction hr with
  | nil => exact Represents.nil
  | @cons m msm l' hlkm hr ih =>
    have hnm : ¬ n = m := fun hh => by
      rw [hh] at hfresh; rw [hfresh] at hlkm; exact Option.noConfusion hlkm
    refine Represents.cons ?_ ih
    simp only [hlookup, if_neg hnm]
    exact hlkm

theorem Represents_herase_not_mem {h : Heap} {p : Ptr} {l : List Nat} {n : Nat}
    (hr : Represents h p l) (hn : n ∉ l) :
    Represents (herase h n) p l := by
  induction hr with
  | nil => exact Represents.nil
  | @cons m msm l' hlk hr ih =>
    have hmn : m ≠ n := fun hh => hn (by rw [← hh]; exact List.mem_cons_self m l')
    refine Represents.cons ?_ (ih (fun hh => hn (List.mem_cons_of_mem m hh)))
    rw [hlookup_herase_ne h hmn]
    exact hlk

/-! ## MarkDirty lemmas -/

theorem MarkDirty_noop {s : MonState} {n : Nat} {ms : mon_stream_t}
    (hlk : hlookup s.heap n = some ms) (hd : ms.dirty ≠ Ptr.null) :
    MarkDirty s n = s := by
  unfold MarkDirty
  simp only [hlk, if_neg hd]

theorem Inv_MarkDirty {s : MonState} (hs : Inv s) (n : Nat) : Inv (MarkDirty s n) := by
  obtain ⟨hkeys, hgood, hblock, hname, l, hrep, hnd, hiff⟩ := hs
  unfold MarkDirty
  cases hlk : hlookup s.heap n with
  | none => exact ⟨hkeys, hgood, hblock, hname, l, hrep, hnd, hiff⟩
  | some ms =>
    by_cases hd : ms.dirty = Ptr.null
    · simp only [if_pos hd]
      have hnl : n ∉ l := fun hh => (hiff n ms hlk).mpr hh hd
      refine ⟨?_, ?_, hblock, hname, n :: l, ?_, ?_, ?_⟩
      · rw [hupdate_keys]; exact hkeys
      · intro m msm hm
        by_cases hmn : m = n
        · rw [hmn, hlookup_hupdate_self hlk _] at hm
          have hmm : msm = { ms with dirty := s.task.dirty_list } :=
            (Option.some.inj hm).symm
          subst hmm
          rw [hmn]
          exact hgood n ms hlk
        · rw [hlookup_hupdate_ne _ _ hmn] at hm
          exact hgood m msm hm
      · exact Represents.cons (hlookup_hupdate_self hlk _)
          (Represents_hupdate_not_mem _ hrep hnl)
      · exact List.nodup_cons.mpr ⟨hnl, hnd⟩
      · intro m msm hm
        by_cases hmn : m = n
        · rw [hmn, hlookup_hupdate_self hlk _] at hm
          have hmm : msm = { ms with dirty := s.task.dirty_list } :=
            (Option.some.inj hm).symm
          subst hmm
          have hdl : s.task.dirty_list ≠ Ptr.null := Represents_ne_null hrep
          rw [hmn]
          exact iff_of_true hdl (List.mem_cons_self _ _)
        · rw [hlookup_hupdate_ne _ _ hmn] at hm
          exact (hiff m msm hm).trans (by simp [List.mem_cons, hmn])
    · simp only [if_neg hd]
      exact ⟨hkeys, hgood, hblock, hname, l, hrep, hnd, hiff⟩

/-! ## Invariant preservation by the stream events -/

theorem Inv_update_same_dirty {s : MonState} {n : Nat} {ms ms2 : mon_stream_t}
    (hs : Inv s) (hlk : hlookup s.heap n = some ms)
    (hd : ms2.dirty = ms.dirty) (hmt : ms2.montask = ms.montask)
    (hst : ms2.state = ST_INUSE ∨ ms2.state = ST_OPENED ∨ ms2.state = ST_CLOSED ∨
      ms2.state = ST_REPLACED)
    (hmd : ms2.mode = 'r' ∨ ms2.mode = 'w') :
    Inv { s with heap := hupdate s.heap n ms2 } := by
  obtain ⟨hkeys, hgood, hblock, hname, l, hrep, hnd, hiff⟩ := hs
  refine ⟨?_, ?_, hblock, hname, l, ?_, hnd, ?_⟩
  · rw [hupdate_keys]; exact hkeys
  · intro m msm hm
    by_cases hmn : m = n
    · rw [hmn, hlookup_hupdate_self hlk _] at hm
      have hmm : msm = ms2 := (Option.some.inj hm).symm
      subst hmm
      have hg := hgood n ms hlk
      rw [hmn]
      exact ⟨hmt.trans hg.1, hg.2.1, hst, hmd⟩
    · rw [hlookup_hupdate_ne _ _ hmn] at hm
      exact hgood m msm hm
  · exact Represents_hupdate_same_dirty hlk hd hrep
  · intro m msm hm
    by_cases hmn : m = n
    · rw [hmn, hlookup_hupdate_self hlk _] at hm
      have hmm : msm = ms2 := (Option.some.inj hm).symm
      subst hmm
      rw [hmn, hd]
      exact hiff n ms hlk
    · rw [hlookup_hupdate_ne _ _ hmn] at hm
      exact hiff m msm hm

theorem Inv_set_blockon {s : MonState} (hs : Inv s) {c : Char}
    (hc : c = 'a' ∨ c = 'i' ∨ c = 'o') :
    Inv { s with task := { s.task with blockon := c } } := by
  obtain ⟨hkeys, hgood, hblock, hname, l, hrep, hnd, hiff⟩ := hs
  exact ⟨hkeys, hgood, hc, hname, l, hrep, hnd, hiff⟩

theorem Inv_TaskStart {s : MonState} (hs : Inv s) (now : timing_t) :
    Inv (LpelMonTaskStart s now) := by
  obtain ⟨hkeys, hgood, hblock, hname, l, hrep, hnd, hiff⟩ := hs
  by_cases ht : s.task.flags &&& LPEL_MON_TASK_TIMES ≠ 0
  · simp only [LpelMonTaskStart, if_pos ht]
    exact ⟨hkeys, hgood, Or.inl rfl, hname, l, hrep, hnd, hiff⟩
  · simp only [LpelMonTaskStart, if_neg ht]
    exact ⟨hkeys, hgood, Or.inl rfl, hname, l, hrep, hnd, hiff⟩

theorem Inv_applyEvent {s : MonState} (hs : Inv s) {e : MonEvent} (he : evOK e) :
    Inv (applyEvent s e) := by
  cases e with
  | evOpen sid mode =>
    simp only [applyEvent, LpelMonStreamOpen]
    by_cases hf : s.task.flags &&& LPEL_MON_TASK_STREAMS ≠ 0
    · simp only [if_pos hf]
      apply Inv_MarkDirty
      obtain ⟨hkeys, hgood, hblock, hname, l, hrep, hnd, hiff⟩ := hs
      have hfresh : hlookup s.heap s.next = none := by
        cases hl : hlookup s.heap s.next with
        | none => rfl
        | some msx => exact absurd (hgood _ _ hl).2.1 (lt_irrefl _)
      have hnm : s.next ∉ s.heap.map Prod.fst := fun hmem => by
        obtain ⟨msx, hmsx⟩ := hlookup_isSome_of_mem hmem
        rw [hfresh] at hmsx; exact Option.noConfusion hmsx
      have hnl : s.next ∉ l := fun hh => by
        obtain ⟨msx, hmsx⟩ := Represents_mem_lookup hrep _ hh
        rw [hfresh] at hmsx; exact Option.noConfusion hmsx
      refine ⟨?_, ?_, hblock, hname, l, ?_, hnd, ?_⟩
      · simp only [List.map_cons]
        exact List.nodup_cons.mpr ⟨hnm, hkeys⟩
      · intro m msm hm
        simp only [hlookup] at hm
        by_cases hmn : s.next = m
        · rw [if_pos hmn] at hm
          have hmm := (Option.some.inj hm).symm
          subst hmm
          rw [← hmn]
          exact ⟨rfl, Nat.lt_succ_self _, Or.inr (Or.inl rfl), he⟩
        · rw [if_neg hmn] at hm
          have hg := hgood m msm hm
          exact ⟨hg.1, Nat.lt_succ_of_lt hg.2.1, hg.2.2.1, hg.2.2.2⟩
      · exact Represents_cons_fresh _ hfresh hrep
      · intro m msm hm
        simp only [hlookup] at hm
        by_cases hmn : s.next = m
        · rw [if_pos hmn] at hm
          have hmm := (Option.some.inj hm).symm
          subst hmm
          constructor
          · intro hcon; exact absurd rfl hcon
          · intro hmem; exact absurd (hmn ▸ hmem) hnl
        · rw [if_neg hmn] at hm
          exact hiff m msm hm
    · simp only [if_neg hf]
      exact hs
  | evClose n =>
    simp only [applyEvent, LpelMonStreamClose]
    cases hlk : hlookup s.heap n with
    | none => exact hs
    | some ms =>
      apply Inv_MarkDirty
      exact Inv_update_same_dirty hs hlk rfl rfl (Or.inr (Or.inr (Or.inl rfl)))
        (hs.2.1 n ms hlk).2.2.2
  | evReplace n sid =>
    simp only [applyEvent, LpelMonStreamReplace]
    cases hlk : hlookup s.heap n with
    | none => exact hs
    | some ms =>
      apply Inv_MarkDirty
      exact Inv_update_same_dirty hs hlk rfl rfl (Or.inr (Or.inr (Or.inr rfl)))
        (hs.2.1 n ms hlk).2.2.2
  | evMoved n =>
    simp only [applyEvent, LpelMonStreamMoved]
    cases hlk : hlookup s.heap n with
    | none => exact hs
    | some ms =>
      apply Inv_MarkDirty
      exact Inv_update_same_dirty hs hlk rfl rfl (hs.2.1 n ms hlk).2.2.1
        (hs.2.1 n ms hlk).2.2.2
  | evBlockon n =>
    simp only [applyEvent, LpelMonStreamBlockon]
    cases hlk : hlookup s.heap n with
    | none => exact hs
    | some ms =>
      have h1 : Inv (MarkDirty
          { s with heap := hupdate s.heap n { ms with event_flags := ms.event_flags ||| ST_BLOCKON } }
          n) :=
        Inv_MarkDirty (@Inv_update_same_dirty s n ms
          { ms with event_flags := ms.event_flags ||| ST_BLOCKON }
          hs hlk rfl rfl (hs.2.1 n ms hlk).2.2.1 (hs.2.1 n ms hlk).2.2.2) n
      by_cases hr : ms.mode = 'r'
      · simp only [if_pos hr]
        exact Inv_set_blockon h1 (Or.inr (Or.inl rfl))
      · simp only [if_neg hr]
        by_cases hw : ms.mode = 'w'
        · simp only [if_pos hw]
          exact Inv_set_blockon h1 (Or.inr (Or.inr rfl))
        · simp only [if_neg hw]
          exact h1
  | evWakeup n =>
    simp only [applyEvent, LpelMonStreamWakeup]
    cases hlk : hlookup s.heap n with
    | none => exact hs
    | some ms =>
      exact Inv_update_same_dirty hs hlk rfl rfl (hs.2.1 n ms hlk).2.2.1
        (hs.2.1 n ms hlk).2.2.2

theorem Inv_applyEvents {s : MonState} {evs : List MonEvent}
    (hs : Inv s) (hevs : ∀ e ∈ evs, evOK e) : Inv (applyEvents s evs) := by
  induction evs generalizing s with
  | nil => exact hs
  | cons e evs ih =>
    exact ih (Inv_applyEvent hs (hevs e (List.mem_cons_self e evs)))
      (fun x hx => hevs x (List.mem_cons_of_mem e hx))

/-! ## Fields untouched by the stream events -/

theorem MarkDirty_fields (s : MonState) (n : Nat) :
    (MarkDirty s n).task.disp = s.task.disp ∧
    (MarkDirty s n).task.tid = s.task.tid ∧
    (MarkDirty s n).task.name = s.task.name ∧
    (MarkDirty s n).task.flags = s.task.flags ∧
    (MarkDirty s n).ctx = s.ctx := by
  unfold MarkDirty
  cases hlk : hlookup s.heap n with
  | none => exact ⟨rfl, rfl, rfl, rfl, rfl⟩
  | some ms =>
    by_cases hd : ms.dirty = Ptr.null <;> simp [hd]

theorem applyEvent_fields (s : MonState) (e : MonEvent) :
    (applyEvent s e).task.disp = s.task.disp ∧
    (applyEvent s e).task.tid = s.task.tid ∧
    (applyEvent s e).task.name = s.task.name ∧
    (applyEvent s e).task.flags = s.task.flags ∧
    (applyEvent s e).ctx = s.ctx := by
  cases e with
  | evOpen sid mode =>
    simp only [applyEvent, LpelMonStreamOpen]
    by_cases hf : s.task.flags &&& LPEL_MON_TASK_STREAMS ≠ 0
    · simp only [if_pos hf]
      exact MarkDirty_fields _ _
    · simp [if_neg hf]
  | evClose n =>
    simp only [applyEvent, LpelMonStreamClose]
    cases hlk : hlookup s.heap n with
    | none => exact ⟨rfl, rfl, rfl, rfl, rfl⟩
    | some ms => exact MarkDirty_fields _ _
  | evReplace n sid =>
    simp only [applyEvent, LpelMonStreamReplace]
    cases hlk : hlookup s.heap n with
    | none => exact ⟨rfl, rfl, rfl, rfl, rfl⟩
    | some ms => exact MarkDirty_fields _ _
  | evMoved n =>
    simp only [applyEvent, LpelMonStreamMoved]
    cases hlk : hlookup s.heap n with
    | none => exact ⟨rfl, rfl, rfl, rfl, rfl⟩
    | some ms => exact MarkDirty_fields _ _
  | evBlockon n =>
    simp only [applyEvent, LpelMonStreamBlockon]
    cases hlk : hlookup s.heap n with
    | none => exact ⟨rfl, rfl, rfl, rfl, rfl⟩
    | some ms =>
      have h1 := MarkDirty_fields
        { s with heap := hupdate s.heap n { ms with event_flags := ms.event_flags ||| ST_BLOCKON } }
        n
      by_cases hr : ms.mode = 'r'
      · simp only [if_pos hr]
        exact h1
      · simp only [if_neg hr]
        by_cases hw : ms.mode = 'w'
        · simp only [if_pos hw]
          exact h1
        · simp only [if_neg hw]
          exact h1
  | evWakeup n =>
    simp only [applyEvent, LpelMonStreamWakeup]
    cases hlk : hlookup s.heap n with
    | none => exact ⟨rfl, rfl, rfl, rfl, rfl⟩
    | some ms => exact ⟨rfl, rfl, rfl, rfl, rfl⟩

theorem applyEvents_fields (s : MonState) (evs : List MonEvent) :
    (applyEvents s evs).task.disp = s.task.disp ∧
    (applyEvents s evs).task.tid = s.task.tid ∧
    (applyEvents s evs).task.name = s.task.name ∧
    (applyEvents s evs).task.flags = s.task.flags ∧
    (applyEvents s evs).ctx = s.ctx := by
  induction evs generalizing s with
  | nil => exact ⟨rfl, rfl, rfl, rfl, rfl⟩
  | cons e evs ih =>
    have h1 := applyEvent_fields s e
    have h2 := ih (applyEvent s e)
    exact ⟨h2.1.trans h1.1, h2.2.1.trans h1.2.1, h2.2.2.1.trans h1.2.2.1,
      h2.2.2.2.1.trans h1.2.2.2.1, h2.2.2.2.2.trans h1.2.2.2.2⟩

/-! ## Specification of the dirty-list drain -/

theorem forall₂_entry_transfer {hA hB : Heap} {l : List Nat} {es : List Entry}
    (hsame : ∀ m ∈ l, hlookup hA m = hlookup hB m)
    (hf : List.Forall₂ (fun n e => ∃ ms, hlookup hA n = some ms ∧ e = entryOf n ms) l es) :
    List.Forall₂ (fun n e => ∃ ms, hlookup hB n = some ms ∧ e = entryOf n ms) l es := by
  induction hf with
  | nil => exact List.Forall₂.nil
  | @cons a b l' es' hab hf ih =>
    refine List.Forall₂.cons ?_ (ih (fun m hm => hsame m (List.mem_cons_of_mem a hm)))
    obtain ⟨ms, hms, he⟩ := hab
    exact ⟨ms, (hsame a (List.mem_cons_self a l')).symm.trans hms, he⟩

theorem printDirtyAux_spec (tid : Nat) :
    ∀ (l : List Nat) (fuel : Nat) (h : Heap) (p : Ptr),
    Represents h p l → l.Nodup → (h.map Prod.fst).Nodup →
    (∀ n ms, hlookup h n = some ms → ms.montask = tid ∧
      (ms.state = ST_INUSE ∨ ms.state = ST_OPENED ∨ ms.state = ST_CLOSED ∨
        ms.state = ST_REPLACED)) →
    l.length < fuel →
    ∃ h2 es, printDirtyAux tid fuel h p = some (h2, es) ∧
      es.map Entry.node = l ∧
      List.Forall₂ (fun n e => ∃ ms, hlookup h n = some ms ∧ e = entryOf n ms) l es ∧
      (h2.map Prod.fst).Sublist (h.map Prod.fst) ∧
      (∀ n, n ∉ l → hlookup h2 n = hlookup h n) ∧
      (∀ n ∈ l, ∀ ms, hlookup h n = some ms →
        (ms.state = ST_CLOSED → hlookup h2 n = none) ∧
        (ms.state ≠ ST_CLOSED →
          hlookup h2 n =
            some { ms with state := ST_INUSE, dirty := Ptr.null, event_flags := 0 })) := by
  intro l
  induction l with
  | nil =>
    intro fuel h p hrep hnd hkeys hgood hfuel
    cases hrep
    refine ⟨h, [], by cases fuel <;> rfl, rfl, List.Forall₂.nil, List.Sublist.refl _,
      fun n _ => rfl, ?_⟩
    intro n hn
    simp at hn
  | cons a l ih =>
    intro fuel h p hrep hnd hkeys hgood hfuel
    cases hrep with
    | @cons _ msa _ hlk hrep2 =>
      obtain ⟨fuel, rfl⟩ : ∃ f, fuel = f + 1 := ⟨fuel - 1, by omega⟩
      obtain ⟨hal, hndl⟩ := List.nodup_cons.mp hnd
      have hga := hgood a msa hlk
      have hmta : ¬ msa.montask ≠ tid := not_not_intro hga.1
      by_cases hC : msa.state = ST_CLOSED
      · -- the record was closed during the dispatch: it is printed and freed
        have hnc : ¬ (msa.state = ST_OPENED ∨ msa.state = ST_REPLACED ∨
            msa.state = ST_INUSE) := by
          rw [hC]; decide
        have hkeys2 : ((herase h a).map Prod.fst).Nodup :=
          (herase_keys_sublist h a).nodup hkeys
        have hgood2 : ∀ n ms, hlookup (herase h a) n = some ms → ms.montask = tid ∧
            (ms.state = ST_INUSE ∨ ms.state = ST_OPENED ∨ ms.state = ST_CLOSED ∨
              ms.state = ST_REPLACED) := by
          intro n ms hm
          by_cases hna : n = a
          · rw [hna, hlookup_herase_self hkeys] at hm
            exact Option.noConfusion hm
          · rw [hlookup_herase_ne h (fun hh => hna hh)] at hm
            exact hgood n ms hm
        obtain ⟨h2, es, hpr, hmap, hfa, hsub, hun, htr⟩ :=
          ih fuel (herase h a) msa.dirty
            (Represents_herase_not_mem hrep2 hal) hndl hkeys2 hgood2 (by
              simp only [List.length_cons] at hfuel; omega)
        refine ⟨h2, entryOf a msa :: es, ?_, ?_, ?_, ?_, ?_, ?_⟩
        · simp only [printDirtyAux, hlk]
          rw [if_neg hmta, if_neg hnc, if_pos hC, hpr]
        · simp [entryOf, hmap]
        · refine List.Forall₂.cons ⟨msa, hlk, rfl⟩ ?_
          refine forall₂_entry_transfer ?_ hfa
          intro m hm
          exact hlookup_herase_ne h (fun hh => hal (hh ▸ hm))
        · exact hsub.trans (herase_keys_sublist h a)
        · intro n hn
          have hna : n ≠ a := fun hh => hn (hh ▸ List.mem_cons_self a l)
          have hnl : n ∉ l := fun hh => hn (List.mem_cons_of_mem a hh)
          rw [hun n hnl, hlookup_herase_ne h hna]
        · intro n hn ms hms
          rcases List.mem_cons.mp hn with hna | hnl
          · subst hna
            have hmm : ms = msa := Option.some.inj (hms.symm.trans hlk)
            subst hmm
            constructor
            · intro _
              rw [hun n hal, hlookup_herase_self hkeys]
            · intro hcon
              exact absurd hC hcon
          · have hna : n ≠ a := fun hh => hal (hh ▸ hnl)
            have hms2 : hlookup (herase h a) n = some ms := by
              rw [hlookup_herase_ne h hna]; exact hms
            exact htr n hnl ms hms2
      · -- the record survives: it is printed and reset to InUse
        have hcond : msa.state = ST_OPENED ∨ msa.state = ST_REPLACED ∨
            msa.state = ST_INUSE := by
          rcases hga.2 with hI | hO | hCC | hR
          · exact Or.inr (Or.inr hI)
          · exact Or.inl hO
          · exact absurd hCC hC
          · exact Or.inr (Or.inl hR)
        have hkeys2 : ((hupdate h a
            { msa with state := ST_INUSE, dirty := Ptr.null, event_flags := 0 }).map
              Prod.fst).Nodup := by
          rw [hupdate_keys]; exact hkeys
        have hgood2 : ∀ n ms, hlookup (hupdate h a
            { msa with state := ST_INUSE, dirty := Ptr.null, event_flags := 0 }) n =
              some ms → ms.montask = tid ∧
            (ms.state = ST_INUSE ∨ ms.state = ST_OPENED ∨ ms.state = ST_CLOSED ∨
              ms.state = ST_REPLACED) := by
          intro n ms hm
          by_cases hna : n = a
          · rw [hna, hlookup_hupdate_self hlk _] at hm
            have hmm := (Option.some.inj hm).symm
            subst hmm
            exact ⟨hga.1, Or.inl rfl⟩
          · rw [hlookup_hupdate_ne _ _ hna] at hm
            exact hgood n ms hm
        obtain ⟨h2, es, hpr, hmap, hfa, hsub, hun, htr⟩ :=
          ih fuel (hupdate h a
              { msa with state := ST_INUSE, dirty := Ptr.null, event_flags := 0 })
            msa.dirty (Represents_hupdate_not_mem _ hrep2 hal) hndl hkeys2 hgood2 (by
              simp only [List.length_cons] at hfuel; omega)
        refine ⟨h2, entryOf a msa :: es, ?_, ?_, ?_, ?_, ?_, ?_⟩
        · simp only [printDirtyAux, hlk]
          rw [if_neg hmta, if_pos hcond, hpr]
        · simp [entryOf, hmap]
        · refine List.Forall₂.cons ⟨msa, hlk, rfl⟩ ?_
          refine forall₂_entry_transfer ?_ hfa
          intro m hm
          exact hlookup_hupdate_ne _ _ (fun hh => hal (hh ▸ hm))
        · rw [hupdate_keys] at hsub
          exact hsub
        · intro n hn
          have hna : n ≠ a := fun hh => hn (hh ▸ List.mem_cons_self a l)
          have hnl : n ∉ l := fun hh => hn (List.mem_cons_of_mem a hh)
          rw [hun n hnl, hlookup_hupdate_ne _ _ hna]
        · intro n hn ms hms
          rcases List.mem_cons.mp hn with hna | hnl
          · subst hna
            have hmm : ms = msa := Option.some.inj (hms.symm.trans hlk)
            subst hmm
            constructor
            · intro hcon
              exact absurd hcon hC
            · intro _
              rw [hun n hal, hlookup_hupdate_self hlk _]
          · have hna : n ≠ a := fun hh => hal (hh ▸ hnl)
            have hms2 : hlookup (hupdate h a
                { msa with state := ST_INUSE, dirty := Ptr.null, event_flags := 0 }) n =
                  some ms := by
              rw [hlookup_hupdate_ne _ _ hna]; exact hms
            exact htr n hnl ms hms2

/-! ## Newline-freedom of the printed fragments -/

theorem ten_not_mem_natBytesAux (fuel : Nat) : ∀ n, 10 ∉ natBytesAux fuel n := by
  induction fuel with
  | zero => intro n; simp [natBytesAux]
  | succ fuel ih =>
    intro n
    simp only [natBytesAux]
    by_cases hn : n < 10
    · simp only [if_pos hn, List.mem_singleton]
      omega
    · simp only [if_neg hn]
      intro hcon
      rcases List.mem_append.mp hcon with hc | hc
      · exact ih _ hc
      · simp only [List.mem_singleton] at hc
        omega

theorem ten_not_mem_natBytes (n : Nat) : 10 ∉ natBytes n :=
  ten_not_mem_natBytesAux _ _

theorem ten_not_mem_pad6 {l : List Nat} (hl : 10 ∉ l) : 10 ∉ pad6 l := by
  unfold pad6
  intro hcon
  rcases List.mem_append.mp hcon with hc | hc
  · have := List.eq_of_mem_replicate hc
    omega
  · exact hl hc

theorem ten_not_mem_printTiming (t : timing_t) : 10 ∉ printTiming t := by
  unfold printTiming
  split
  · intro hcon
    rcases List.mem_append.mp hcon with hc | hc
    · exact ten_not_mem_natBytes _ hc
    · simp at hc
  · intro hcon
    rcases List.mem_append.mp hcon with hc | hc
    · rcases List.mem_append.mp hc with hc2 | hc2
      · exact ten_not_mem_natBytes _ hc2
      · exact ten_not_mem_pad6 (ten_not_mem_natBytes _) hc2
    · simp at hc

theorem ten_not_mem_entryBytes {e : Entry} (hm : e.mode.toNat ≠ 10)
    (hst : e.state.toNat ≠ 10) : 10 ∉ entryBytes e := by
  have hf1 : (if e.flagBlockon then (63 : Nat) else 45) ≠ 10 := by split <;> decide
  have hf2 : (if e.flagWakeup then (33 : Nat) else 45) ≠ 10 := by split <;> decide
  have hf3 : (if e.flagMoved then (42 : Nat) else 45) ≠ 10 := by split <;> decide
  unfold entryBytes
  intro hcon
  rcases List.mem_append.mp hcon with hc | hc
  · rcases List.mem_append.mp hc with hc | hc
    · rcases List.mem_append.mp hc with hc | hc
      · exact ten_not_mem_natBytes _ hc
      · simp only [List.mem_cons, List.not_mem_nil, or_false] at hc
        rcases hc with hc | hc | hc | hc | hc
        · omega
        · exact hm hc.symm
        · omega
        · exact hst hc.symm
        · omega
    · exact ten_not_mem_natBytes _ hc
  · simp only [List.mem_cons, List.not_mem_nil, or_false] at hc
    rcases hc with hc | hc | hc | hc | hc
    · omega
    · exact hf1 hc.symm
    · exact hf2 hc.symm
    · exact hf3 hc.symm
    · omega

theorem ten_not_mem_entryOf_bytes {n : Nat} {ms : mon_stream_t}
    (hmd : ms.mode = 'r' ∨ ms.mode = 'w')
    (hst : ms.state = ST_INUSE ∨ ms.state = ST_OPENED ∨ ms.state = ST_CLOSED ∨
      ms.state = ST_REPLACED) :
    10 ∉ entryBytes (entryOf n ms) := by
  apply ten_not_mem_entryBytes
  · show ms.mode.toNat ≠ 10
    rcases hmd with h | h <;> rw [h] <;> decide
  · show ms.state.toNat ≠ 10
    rcases hst with h | h | h | h <;> rw [h] <;> decide

theorem ten_not_mem_dispLabel : 10 ∉ dispLabelBytes := by decide

theorem ten_not_mem_stLabel : 10 ∉ stLabelBytes := by decide

theorem ten_not_mem_etLabel : 10 ∉ etLabelBytes := by decide

theorem ten_not_mem_creatLabel : 10 ∉ creatLabelBytes := by decide

/-! ## Auxiliary invariant transfers -/

theorem Inv_task_congr {s : MonState} (hs : Inv s) (t : mon_task_t)
    (htid : t.tid = s.task.tid) (hnm : t.name = s.task.name)
    (hdl : t.dirty_list = s.task.dirty_list) (hbl : t.blockon = s.task.blockon) :
    Inv { s with task := t } := by
  obtain ⟨hkeys, hgood, hblock, hname2, l, hrep, hnd, hiff⟩ := hs
  refine ⟨hkeys, ?_, ?_, ?_, l, ?_, hnd, hiff⟩
  · intro n ms hm
    show goodStream t.tid s.next n ms
    rw [htid]
    exact hgood n ms hm
  · show t.blockon = 'a' ∨ t.blockon = 'i' ∨ t.blockon = 'o'
    rw [hbl]
    exact hblock
  · show 10 ∉ t.name
    rw [hnm]
    exact hname2
  · show Represents s.heap t.dirty_list l
    rw [hdl]
    exact hrep

theorem TaskStart_fields (s : MonState) (now : timing_t) :
    (LpelMonTaskStart s now).task.disp = s.task.disp + 1 ∧
    (LpelMonTaskStart s now).task.tid = s.task.tid ∧
    (LpelMonTaskStart s now).task.name = s.task.name ∧
    (LpelMonTaskStart s now).task.flags = s.task.flags ∧
    (LpelMonTaskStart s now).task.dirty_list = s.task.dirty_list := by
  unfold LpelMonTaskStart
  by_cases ht : s.task.flags &&& LPEL_MON_TASK_TIMES ≠ 0 <;>
    simp [ht]

theorem stopTask_fields (s : MonState) (now : timing_t) :
    (stopTask s now).disp = s.task.disp ∧
    (stopTask s now).tid = s.task.tid ∧
    (stopTask s now).name = s.task.name ∧
    (stopTask s now).flags = s.task.flags ∧
    (stopTask s now).dirty_list = s.task.dirty_list ∧
    (stopTask s now).blockon = s.task.blockon := by
  unfold stopTask
  by_cases ht : s.task.flags &&& LPEL_MON_TASK_TIMES ≠ 0 <;>
    simp [ht]

/-! ## Specification of PrintDirtyList and LpelMonTaskStop -/

theorem PrintDirtyList_spec (s : MonState) (l : List Nat)
    (hs : Inv s) (hrep : Represents s.heap s.task.dirty_list l) :
    ∃ s2 es, PrintDirtyList s = some (s2, es) ∧
      es.map Entry.node = l ∧ l.Nodup ∧
      List.Forall₂ (fun n e => ∃ ms, hlookup s.heap n = some ms ∧ e = entryOf n ms) l es ∧
      s2.task = { s.task with dirty_list := Ptr.dirtyEnd } ∧
      s2.ctx = s.ctx ∧ s2.next = s.next ∧
      (∀ n, n ∉ l → hlookup s2.heap n = hlookup s.heap n) ∧
      (∀ n ∈ l, ∀ ms, hlookup s.heap n = some ms →
        (ms.state = ST_CLOSED → hlookup s2.heap n = none) ∧
        (ms.state ≠ ST_CLOSED →
          hlookup s2.heap n =
            some { ms with state := ST_INUSE, dirty := Ptr.null, event_flags := 0 })) ∧
      Inv s2 := by
  obtain ⟨hkeys, hgood, hblock, hname, l0, hrep0, hnd0, hiff⟩ := hs
  have hleq : l = l0 := Represents_unique hrep hrep0
  subst hleq
  have hsubset : ∀ n ∈ l, n ∈ s.heap.map Prod.fst := by
    intro n hn
    obtain ⟨ms, hms⟩ := Represents_mem_lookup hrep n hn
    exact hlookup_mem hms
  have hlen : l.length ≤ s.heap.length := by
    have hle := (hnd0.subperm hsubset).length_le
    simpa using hle
  obtain ⟨h2, es, hpr, hmap, hfa, hsub, hun, htr⟩ :=
    printDirtyAux_spec s.task.tid l (s.heap.length + 1) s.heap s.task.dirty_list hrep hnd0
      hkeys (fun n ms hm => ⟨(hgood n ms hm).1, (hgood n ms hm).2.2.1⟩) (by omega)
  refine ⟨{ s with heap := h2, task := { s.task with dirty_list := Ptr.dirtyEnd } }, es,
    ?_, hmap, hnd0, hfa, rfl, rfl, rfl, hun, htr, ?_⟩
  · unfold PrintDirtyList
    rw [hpr]
  · refine ⟨hsub.nodup hkeys, ?_, hblock, hname, [], Represents.nil, List.nodup_nil, ?_⟩
    · intro n ms hm
      by_cases hnl : n ∈ l
      · obtain ⟨ms0, hms0⟩ := Represents_mem_lookup hrep n hnl
        have ht := htr n hnl ms0 hms0
        by_cases hc : ms0.state = ST_CLOSED
        · rw [ht.1 hc] at hm
          exact Option.noConfusion hm
        · rw [ht.2 hc] at hm
          have hmm := (Option.some.inj hm).symm
          subst hmm
          have hg := hgood n ms0 hms0
          exact ⟨hg.1, hg.2.1, Or.inl rfl, hg.2.2.2⟩
      · rw [hun n hnl] at hm
        exact hgood n ms hm
    · intro n ms hm
      by_cases hnl : n ∈ l
      · obtain ⟨ms0, hms0⟩ := Represents_mem_lookup hrep n hnl
        have ht := htr n hnl ms0 hms0
        by_cases hc : ms0.state = ST_CLOSED
        · rw [ht.1 hc] at hm
          exact Option.noConfusion hm
        · rw [ht.2 hc] at hm
          have hmm := (Option.some.inj hm).symm
          subst hmm
          simp
      · rw [hun n hnl] at hm
        constructor
        · intro hcon
          exact absurd ((hiff n ms hm).mp hcon) hnl
        · intro hmem
          simp at hmem

theorem forall₂_mem_right {α β : Type} {R : α → β → Prop} {l1 : List α} {l2 : List β}
    (h : List.Forall₂ R l1 l2) {b : β} (hb : b ∈ l2) : ∃ a, a ∈ l1 ∧ R a b := by
  induction h with
  | nil => simp at hb
  | @cons x y l1 l2 hab h ih =>
    rcases List.mem_cons.mp hb with hb | hb
    · subst hb
      exact ⟨x, List.mem_cons_self x l1, hab⟩
    · obtain ⟨a, ha, hr⟩ := ih hb
      exact ⟨a, List.mem_cons_of_mem _ ha, hr⟩

theorem ten_not_mem_stopHead (mbegin : timing_t) (s : MonState) (stateCh : Char)
    (now : timing_t) (hname : 10 ∉ s.task.name)
    (hbl : s.task.blockon = 'a' ∨ s.task.blockon = 'i' ∨ s.task.blockon = 'o')
    (hleg : taskStateLegal stateCh) :
    10 ∉ stopHead mbegin s stateCh now := by
  have hbln : s.task.blockon.toNat ≠ 10 := by
    rcases hbl with h | h | h <;> rw [h] <;> decide
  have hstn : stateCh.toNat ≠ 10 := by
    rcases hleg with h | h | h | h | h <;> rw [h] <;> decide
  have hA : 10 ∉ (if s.task.flags &&& LPEL_MON_TASK_TIMES ≠ 0
      then printTiming (TimingDiff mbegin now) else []) := by
    split
    · exact ten_not_mem_printTiming _
    · simp
  have hD : 10 ∉ (if s.task.name ≠ [] then s.task.name ++ [32] else []) := by
    split
    · intro hc
      rcases List.mem_append.mp hc with hc | hc
      · exact hname hc
      · simp at hc
    · simp
  have hH : 10 ∉ (if stateCh = TASK_BLOCKED then stLabelBytes ++ [66, s.task.blockon.toNat, 32]
      else stLabelBytes ++ [stateCh.toNat, 32]) := by
    split
    · intro hc
      rcases List.mem_append.mp hc with hc | hc
      · exact ten_not_mem_stLabel hc
      · simp only [List.mem_cons, List.not_mem_nil, or_false] at hc
        rcases hc with hc | hc | hc
        · omega
        · exact hbln hc.symm
        · omega
    · intro hc
      rcases List.mem_append.mp hc with hc | hc
      · exact ten_not_mem_stLabel hc
      · simp only [List.mem_cons, List.not_mem_nil, or_false] at hc
        rcases hc with hc | hc
        · exact hstn hc.symm
        · omega
  have hI : 10 ∉ (if s.task.flags &&& LPEL_MON_TASK_TIMES ≠ 0
      then etLabelBytes ++ printTiming (TimingDiff s.task.start now) ++
        (if stateCh = TASK_ZOMBIE then creatLabelBytes ++ printTiming s.task.creat else [])
      else []) := by
    split
    · intro hc
      rcases List.mem_append.mp hc with hc | hc
      · rcases List.mem_append.mp hc with hc | hc
        · exact ten_not_mem_etLabel hc
        · exact ten_not_mem_printTiming _ hc
      · revert hc
        split
        · intro hc
          rcases List.mem_append.mp hc with hc | hc
          · exact ten_not_mem_creatLabel hc
          · exact ten_not_mem_printTiming _ hc
        · simp
    · simp
  unfold stopHead
  intro hcon
  rcases List.mem_append.mp hcon with hc | hc
  · rcases List.mem_append.mp hc with hc | hc
    · rcases List.mem_append.mp hc with hc | hc
      · rcases List.mem_append.mp hc with hc | hc
        · rcases List.mem_append.mp hc with hc | hc
          · rcases List.mem_append.mp hc with hc | hc
            · rcases List.mem_append.mp hc with hc | hc
              · rcases List.mem_append.mp hc with hc | hc
                · exact hA hc
                · exact ten_not_mem_natBytes _ hc
              · simp at hc
            · exact hD hc
          · exact ten_not_mem_dispLabel hc
        · exact ten_not_mem_natBytes _ hc
      · simp at hc
    · exact hH hc
  · exact hI hc

theorem stopHead_decomp (mbegin : timing_t) (s : MonState) (stateCh : Char)
    (now : timing_t) :
    ∃ u v, stopHead mbegin s stateCh now =
      u ++ (dispLabelBytes ++ natBytes s.task.disp) ++ v := by
  refine ⟨(if s.task.flags &&& LPEL_MON_TASK_TIMES ≠ 0
      then printTiming (TimingDiff mbegin now) else []) ++
    natBytes s.task.tid ++ [32] ++
    (if s.task.name ≠ [] then s.task.name ++ [32] else []),
    [32] ++
    (if stateCh = TASK_BLOCKED then stLabelBytes ++ [66, s.task.blockon.toNat, 32]
     else stLabelBytes ++ [stateCh.toNat, 32]) ++
    (if s.task.flags &&& LPEL_MON_TASK_TIMES ≠ 0
     then etLabelBytes ++ printTiming (TimingDiff s.task.start now) ++
       (if stateCh = TASK_ZOMBIE then creatLabelBytes ++ printTiming s.task.creat else [])
     else []), ?_⟩
  unfold stopHead
  simp [List.append_assoc]

theorem TaskStop_nostreams_spec (mbegin : timing_t) (s : MonState) (stateCh : Char)
    (now : timing_t) (hstr : ¬ s.task.flags &&& LPEL_MON_TASK_STREAMS ≠ 0) :
    LpelMonTaskStop mbegin s stateCh now =
      some ({ s with task := stopTask s now }, [],
        stopHead mbegin s stateCh now ++ [10]) := by
  simp only [LpelMonTaskStop, if_neg hstr]

theorem TaskStop_streams_spec (mbegin : timing_t) (s : MonState) (stateCh : Char)
    (now : timing_t) (hs : Inv s)
    (hstr : s.task.flags &&& LPEL_MON_TASK_STREAMS ≠ 0)
    (l : List Nat) (hrep : Represents s.heap s.task.dirty_list l) :
    ∃ s2 es, LpelMonTaskStop mbegin s stateCh now =
        some (s2, es, stopHead mbegin s stateCh now ++ [91] ++
          (es.map entryBytes).flatten ++ [93, 32] ++ [10]) ∧
      es.map Entry.node = l ∧ l.Nodup ∧
      List.Forall₂ (fun n e => ∃ ms, hlookup s.heap n = some ms ∧ e = entryOf n ms) l es ∧
      s2.task.dirty_list = Ptr.dirtyEnd ∧
      s2.task.disp = s.task.disp ∧
      (∀ n, n ∉ l → hlookup s2.heap n = hlookup s.heap n) ∧
      (∀ n ∈ l, ∀ ms, hlookup s.heap n = some ms →
        (ms.state = ST_CLOSED → hlookup s2.heap n = none) ∧
        (ms.state ≠ ST_CLOSED →
          hlookup s2.heap n =
            some { ms with state := ST_INUSE, dirty := Ptr.null, event_flags := 0 })) ∧
      Inv s2 := by
  have hsf := stopTask_fields s now
  have hs' : Inv { s with task := stopTask s now } :=
    Inv_task_congr hs _ hsf.2.1 hsf.2.2.1 hsf.2.2.2.2.1 hsf.2.2.2.2.2
  have hrep' : Represents s.heap (stopTask s now).dirty_list l := by
    rw [hsf.2.2.2.2.1]
    exact hrep
  obtain ⟨s2, es, hpr, hmap, hnd, hfa, htask, hctx, hnext, hun, htr, hinv⟩ :=
    PrintDirtyList_spec { s with task := stopTask s now } l hs' hrep'
  refine ⟨s2, es, ?_, hmap, hnd, hfa, ?_, ?_, hun, htr, hinv⟩
  · simp only [LpelMonTaskStop, if_pos hstr]
    rw [hpr]
  · rw [htask]
  · rw [htask]
    exact hsf.1

/-! ## One dispatch writes one line -/

theorem getLast?_ten (l : List Nat) : (l ++ [10]).getLast? = some 10 := by simp

theorem dispatch_spec (mbegin : timing_t) (s : MonState) (d : DispatchIn)
    (hs : Inv s) (hevs : ∀ e ∈ d.events, evOK e) (hleg : taskStateLegal d.stopState) :
    ∃ s3 out, dispatch mbegin s d = some (s3, s.task.disp + 1, out) ∧
      Inv s3 ∧ s3.task.disp = s.task.disp + 1 ∧
      out.count 10 = 1 ∧ out.getLast? = some 10 ∧
      ∃ u v, out = u ++ (dispLabelBytes ++ natBytes (s.task.disp + 1)) ++ v := by
  have hi1 : Inv (LpelMonTaskStart s d.startT) := Inv_TaskStart hs d.startT
  have hi2 : Inv (applyEvents (LpelMonTaskStart s d.startT) d.events) :=
    Inv_applyEvents hi1 hevs
  have hf1 := TaskStart_fields s d.startT
  have hf2 := applyEvents_fields (LpelMonTaskStart s d.startT) d.events
  have hdisp2 : (applyEvents (LpelMonTaskStart s d.startT) d.events).task.disp =
      s.task.disp + 1 := by rw [hf2.1, hf1.1]
  have hhead10 : 10 ∉ stopHead mbegin (applyEvents (LpelMonTaskStart s d.startT) d.events)
      d.stopState d.stopT :=
    ten_not_mem_stopHead _ _ _ _ hi2.2.2.2.1 hi2.2.2.1 hleg
  obtain ⟨u, v, hdec⟩ := stopHead_decomp mbegin
    (applyEvents (LpelMonTaskStart s d.startT) d.events) d.stopState d.stopT
  rw [hdisp2] at hdec
  by_cases hstr : (applyEvents (LpelMonTaskStart s d.startT) d.events).task.flags &&&
      LPEL_MON_TASK_STREAMS ≠ 0
  · obtain ⟨l, hrep, hndl0, hiff0⟩ := hi2.2.2.2.2
    obtain ⟨s3, es, heqn, hmap, hndl, hfa, hdl3, hdisp3, hun, htr, hinv3⟩ :=
      TaskStop_streams_spec mbegin (applyEvents (LpelMonTaskStart s d.startT) d.events)
        d.stopState d.stopT hi2 hstr l hrep
    have hF : 10 ∉ (es.map entryBytes).flatten := by
      intro hc
      rw [List.mem_flatten] at hc
      obtain ⟨bs, hbs, hcb⟩ := hc
      rw [List.mem_map] at hbs
      obtain ⟨e, hees, hbe⟩ := hbs
      obtain ⟨n, hnl2, ms, hms, hee⟩ := forall₂_mem_right hfa hees
      have hg := hi2.2.1 n ms hms
      rw [← hbe, hee] at hcb
      exact ten_not_mem_entryOf_bytes hg.2.2.2 hg.2.2.1 hcb
    refine ⟨s3, stopHead mbegin (applyEvents (LpelMonTaskStart s d.startT) d.events)
        d.stopState d.stopT ++ [91] ++ (es.map entryBytes).flatten ++ [93, 32] ++ [10],
      ?_, hinv3, hdisp3.trans hdisp2, ?_, ?_, ?_⟩
    · simp only [dispatch]
      rw [heqn, hdisp2]
    · simp only [List.count_append]
      rw [List.count_eq_zero.mpr hhead10, List.count_eq_zero.mpr hF]
      decide
    · exact getLast?_ten _
    · refine ⟨u, v ++ ([91] ++ (es.map entryBytes).flatten ++ [93, 32] ++ [10]), ?_⟩
      rw [hdec]
      simp [List.append_assoc]
  · have heqn := TaskStop_nostreams_spec mbegin
      (applyEvents (LpelMonTaskStart s d.startT) d.events) d.stopState d.stopT hstr
    have hsf := stopTask_fields (applyEvents (LpelMonTaskStart s d.startT) d.events) d.stopT
    refine ⟨{ applyEvents (LpelMonTaskStart s d.startT) d.events with
        task := stopTask (applyEvents (LpelMonTaskStart s d.startT) d.events) d.stopT },
      stopHead mbegin (applyEvents (LpelMonTaskStart s d.startT) d.events)
        d.stopState d.stopT ++ [10],
      ?_, ?_, ?_, ?_, ?_, ?_⟩
    · simp only [dispatch]
      rw [heqn, hdisp2]
    · exact Inv_task_congr hi2 _ hsf.2.1 hsf.2.2.1 hsf.2.2.2.2.1 hsf.2.2.2.2.2
    · show (stopTask (applyEvents (LpelMonTaskStart s d.startT) d.events) d.stopT).disp =
        s.task.disp + 1
      rw [hsf.1, hdisp2]
    · simp only [List.count_append]
      rw [List.count_eq_zero.mpr hhead10]
      decide
    · exact getLast?_ten _
    · refine ⟨u, v ++ [10], ?_⟩
      rw [hdec]
      simp [List.append_assoc]

/-! ## Concrete monitoring states used as witnesses -/

/-- A task monitor record with both monitoring flags on and one record
on its dirty list. -/
def monTask1 : mon_task_t := ⟨[], 1, 3, 0, ⟨0, 0⟩, ⟨0, 0⟩, ⟨0, 0⟩, ⟨0, 0⟩, Ptr.node 0, 'a'⟩

/-- A stream record opened this dispatch, linked on the dirty list. -/
def monStream1 : mon_stream_t := ⟨1, Ptr.dirtyEnd, 'r', 'O', 5, 1, 1⟩

/-- An in-use stream record not linked on the dirty list. -/
def monStream2 : mon_stream_t := ⟨1, Ptr.null, 'w', 'I', 6, 0, 2⟩

/-- A worker monitoring context. -/
def monCtx1 : monctx_t := ⟨0, 0, 0, ⟨0, 0⟩, ⟨0, 0⟩⟩

/-- A monitoring state with two allocated records, one of them dirty. -/
def monState1 : MonState := ⟨[(0, monStream1), (1, monStream2)], monTask1, monCtx1, 2⟩

theorem Inv_monState1 : Inv monState1 := by
  have hlk : ∀ n, hlookup monState1.heap n =
      if 0 = n then some monStream1 else if 1 = n then some monStream2 else none := by
    intro n
    rfl
  refine ⟨by decide, ?_, Or.inl rfl, by decide, [0], ?_, by decide, ?_⟩
  · intro n ms hm
    rw [hlk] at hm
    by_cases h0 : 0 = n
    · rw [if_pos h0] at hm
      have hee := (Option.some.inj hm).symm
      subst hee
      rw [← h0]
      decide
    · rw [if_neg h0] at hm
      by_cases h1 : 1 = n
      · rw [if_pos h1] at hm
        have hee := (Option.some.inj hm).symm
        subst hee
        rw [← h1]
        decide
      · rw [if_neg h1] at hm
        exact Option.noConfusion hm
  · exact Represents.cons rfl Represents.nil
  · intro n ms hm
    rw [hlk] at hm
    by_cases h0 : 0 = n
    · rw [if_pos h0] at hm
      have hee := (Option.some.inj hm).symm
      subst hee
      rw [← h0]
      decide
    · rw [if_neg h0] at hm
      by_cases h1 : 1 = n
      · rw [if_pos h1] at hm
        have hee := (Option.some.inj hm).symm
        subst hee
        rw [← h1]
        decide
      · rw [if_neg h1] at hm
        exact Option.noConfusion hm

/-- Events used in the C7 witness. -/
def evs0 : List MonEvent :=
  [MonEvent.evOpen 7 'r', MonEvent.evMoved 0, MonEvent.evBlockon 0,
   MonEvent.evWakeup 0, MonEvent.evClose 0]

/-! ## Claims C7 to C10 -/

/-- C7: within one dispatch, every sequence of monitoring events links a
descriptor into the dirty list of its task at most once: from a
well-formed state every event sequence keeps the state well formed, so
the represented dirty list never holds duplicates; MarkDirty is a no-op
whenever the dirty link of the record is already non-null; and the
reserved sentinel is distinct from the null pointer that marks an
unlinked record. -/
theorem C7_dirty_once (s : MonState) (evs : List MonEvent)
    (hs : Inv s) (hevs : ∀ e ∈ evs, evOK e) :
    Inv (applyEvents s evs) ∧
    (∀ l, Represents (applyEvents s evs).heap (applyEvents s evs).task.dirty_list l →
      l.Nodup) ∧
    (∀ s1 : MonState, ∀ n ms, hlookup s1.heap n = some ms → ms.dirty ≠ Ptr.null →
      MarkDirty s1 n = s1) ∧
    Ptr.dirtyEnd ≠ Ptr.null := by
  have hinv := Inv_applyEvents hs hevs
  refine ⟨hinv, ?_, ?_, by simp⟩
  · intro l hl
    obtain ⟨l0, hrep0, hnd0, _⟩ := hinv.2.2.2.2
    rw [Represents_unique hl hrep0]
    exact hnd0
  · intro s1 n ms hlk hd
    exact MarkDirty_noop hlk hd

/-- Witness for C7 at a concrete state and event sequence. -/
theorem C7_dirty_once_witness :
    Inv (applyEvents monState1 evs0) ∧
    (∀ l, Represents (applyEvents monState1 evs0).heap
        (applyEvents monState1 evs0).task.dirty_list l → l.Nodup) ∧
    (∀ s1 : MonState, ∀ n ms, hlookup s1.heap n = some ms → ms.dirty ≠ Ptr.null →
      MarkDirty s1 n = s1) ∧
    Ptr.dirtyEnd ≠ Ptr.null :=
  C7_dirty_once monState1 evs0 Inv_monState1 (by decide)

/-- C8: after LpelMonTaskStop on a task with stream monitoring enabled,
the dirty list is fully drained with each entry printed exactly once
(the printed entries correspond one to one to the duplicate-free dirty
list), entries whose state was Opened, Replaced or InUse survive with
state InUse, null dirty link and cleared event flags, entries whose
state was Closed are freed, records off the list are untouched, and the
dirty-list head is reset to the sentinel. -/
theorem C8_drain (mbegin : timing_t) (s : MonState) (stateCh : Char) (now : timing_t)
    (hs : Inv s) (hstr : s.task.flags &&& LPEL_MON_TASK_STREAMS ≠ 0)
    (l : List Nat) (hrep : Represents s.heap s.task.dirty_list l) :
    ∃ s2 es out, LpelMonTaskStop mbegin s stateCh now = some (s2, es, out) ∧
      es.map Entry.node = l ∧ l.Nodup ∧
      List.Forall₂ (fun n e => ∃ ms, hlookup s.heap n = some ms ∧ e = entryOf n ms) l es ∧
      s2.task.dirty_list = Ptr.dirtyEnd ∧
      (∀ n ∈ l, ∀ ms, hlookup s.heap n = some ms →
        ((ms.state = ST_OPENED ∨ ms.state = ST_REPLACED ∨ ms.state = ST_INUSE) →
          hlookup s2.heap n =
            some { ms with state := ST_INUSE, dirty := Ptr.null, event_flags := 0 }) ∧
        (ms.state = ST_CLOSED → hlookup s2.heap n = none)) ∧
      (∀ n, n ∉ l → hlookup s2.heap n = hlookup s.heap n) := by
  obtain ⟨s2, es, heqn, hmap, hnd, hfa, hdl, hdisp, hun, htr, hinv⟩ :=
    TaskStop_streams_spec mbegin s stateCh now hs hstr l hrep
  refine ⟨s2, es, _, heqn, hmap, hnd, hfa, hdl, ?_, hun⟩
  intro n hn ms hms
  have ht := htr n hn ms hms
  refine ⟨?_, ht.1⟩
  intro hsur
  apply ht.2
  rcases hsur with h | h | h <;> rw [h] <;> decide

/-- Witness for C8 at a concrete state whose dirty list holds one
opened record. -/
theorem C8_drain_witness :
    (monState1.task.flags &&& LPEL_MON_TASK_STREAMS ≠ 0 ∧
      Represents monState1.heap monState1.task.dirty_list [0]) ∧
    (∃ s2 es out, LpelMonTaskStop ⟨0, 0⟩ monState1 'Z' ⟨0, 0⟩ = some (s2, es, out) ∧
      es.map Entry.node = [0] ∧ ([0] : List Nat).Nodup ∧
      List.Forall₂ (fun n e => ∃ ms, hlookup monState1.heap n = some ms ∧ e = entryOf n ms)
        [0] es ∧
      s2.task.dirty_list = Ptr.dirtyEnd ∧
      (∀ n ∈ ([0] : List Nat), ∀ ms, hlookup monState1.heap n = some ms →
        ((ms.state = ST_OPENED ∨ ms.state = ST_REPLACED ∨ ms.state = ST_INUSE) →
          hlookup s2.heap n =
            some { ms with state := ST_INUSE, dirty := Ptr.null, event_flags := 0 }) ∧
        (ms.state = ST_CLOSED → hlookup s2.heap n = none)) ∧
      (∀ n, n ∉ ([0] : List Nat) → hlookup s2.heap n = hlookup monState1.heap n)) :=
  ⟨⟨by decide, Represents.cons rfl Represents.nil⟩,
    C8_drain ⟨0, 0⟩ monState1 'Z' ⟨0, 0⟩ Inv_monState1 (by decide) [0]
      (Represents.cons rfl Represents.nil)⟩

/-- C9: from a well-formed monitoring state, every sequence of
dispatches succeeds; each dispatch writes exactly one newline-terminated
line (one newline byte, at the end) containing the dispatch counter,
which the dispatch has incremented by exactly one, so the counters
printed on the successive lines of the task are strictly increasing. -/
theorem C9_trace_lines (mbegin : timing_t) (s : MonState) (ds : List DispatchIn)
    (hs : Inv s)
    (hds : ∀ d ∈ ds, (∀ e ∈ d.events, evOK e) ∧ taskStateLegal d.stopState) :
    ∃ s2 outs, runDispatches mbegin s ds = some (s2, outs) ∧
      outs.map Prod.fst = (List.range ds.length).map (fun i => s.task.disp + i + 1) ∧
      (outs.map Prod.fst).Pairwise (fun a b => a < b) ∧
      (∀ p ∈ outs, p.2.count 10 = 1 ∧ p.2.getLast? = some 10 ∧
        ∃ u v, p.2 = u ++ (dispLabelBytes ++ natBytes p.1) ++ v) ∧
      s2.task.disp = s.task.disp + ds.length := by
  induction ds generalizing s with
  | nil =>
    exact ⟨s, [], rfl, by simp, by simp, by simp, by simp⟩
  | cons d ds ih =>
    obtain ⟨s3, out, heq, hinv3, hdisp3, hcount, hlast, hinf⟩ :=
      dispatch_spec mbegin s d hs (hds d (List.mem_cons_self d ds)).1
        (hds d (List.mem_cons_self d ds)).2
    obtain ⟨s4, outs, hrun, hmapd, hpw, hline, hdisp4⟩ :=
      ih s3 hinv3 (fun x hx => hds x (List.mem_cons_of_mem d hx))
    rw [hdisp3] at hmapd
    have hms : ((s.task.disp + 1, out) :: outs).map Prod.fst =
        (List.range (d :: ds).length).map (fun i => s.task.disp + i + 1) := by
      simp only [List.map_cons, List.length_cons]
      rw [List.range_succ_eq_map, List.map_cons, List.map_map, hmapd]
      congr 1
      apply List.map_congr_left
      intro i _
      simp [Function.comp]
      omega
    refine ⟨s4, (s.task.disp + 1, out) :: outs, ?_, hms, ?_, ?_, ?_⟩
    · simp only [runDispatches, heq, hrun]
    · rw [hms]
      exact (List.pairwise_lt_range _).map _ (fun a b hab => by omega)
    · intro p hp
      rcases List.mem_cons.mp hp with hp | hp
      · subst hp
        exact ⟨hcount, hlast, hinf⟩
      · exact hline p hp
    · simp only [List.length_cons]
      rw [hdisp4, hdisp3]
      omega

/-- Dispatch inputs used in the C9 witness. -/
def ds0 : List DispatchIn :=
  [⟨[MonEvent.evOpen 5 'r', MonEvent.evMoved 2], ⟨0, 1000⟩, ⟨0, 2000⟩, 'B'⟩,
   ⟨[MonEvent.evMoved 2, MonEvent.evClose 2], ⟨0, 3000⟩, ⟨0, 4000⟩, 'Z'⟩]

/-- Witness for C9 at a concrete state and two dispatches. -/
theorem C9_trace_lines_witness :
    ∃ s2 outs, runDispatches ⟨0, 0⟩ monState1 ds0 = some (s2, outs) ∧
      outs.map Prod.fst = (List.range ds0.length).map (fun i => monState1.task.disp + i + 1) ∧
      (outs.map Prod.fst).Pairwise (fun a b => a < b) ∧
      (∀ p ∈ outs, p.2.count 10 = 1 ∧ p.2.getLast? = some 10 ∧
        ∃ u v, p.2 = u ++ (dispLabelBytes ++ natBytes p.1) ++ v) ∧
      s2.task.disp = monState1.task.disp + ds0.length :=
  C9_trace_lines ⟨0, 0⟩ monState1 ds0 Inv_monState1 (by decide)

/-- C10: LpelMonStreamWakeup only sets the woken event flag: it does not
link the record into the dirty list of its task (the list head and every
other record are untouched, and the dirty link of the record keeps its
value), so a record whose dirty link is null is not on the dirty list
after the wakeup and is not among the entries printed by
PrintDirtyList: the woken flag of a descriptor is printed only when some
other event marked it dirty in the same dispatch. -/
theorem C10_wakeup_not_dirty (s : MonState) (n : Nat) (ms : mon_stream_t)
    (hs : Inv s) (hms : hlookup s.heap n = some ms) :
    hlookup (LpelMonStreamWakeup s n).heap n =
      some { ms with event_flags := ms.event_flags ||| ST_WAKEUP } ∧
    (LpelMonStreamWakeup s n).task.dirty_list = s.task.dirty_list ∧
    (∀ m, m ≠ n → hlookup (LpelMonStreamWakeup s n).heap m = hlookup s.heap m) ∧
    (ms.dirty = Ptr.null →
      (∀ l, Represents (LpelMonStreamWakeup s n).heap
          (LpelMonStreamWakeup s n).task.dirty_list l → n ∉ l) ∧
      (∀ s2 es, PrintDirtyList (LpelMonStreamWakeup s n) = some (s2, es) →
        ∀ e ∈ es, e.node ≠ n)) := by
  have heq : LpelMonStreamWakeup s n =
      { s with heap := hupdate s.heap n { ms with event_flags := ms.event_flags ||| ST_WAKEUP } } := by
    unfold LpelMonStreamWakeup
    rw [hms]
  rw [heq]
  have hinv2 :
      Inv { s with heap := hupdate s.heap n { ms with event_flags := ms.event_flags ||| ST_WAKEUP } } :=
    @Inv_update_same_dirty s n ms { ms with event_flags := ms.event_flags ||| ST_WAKEUP }
      hs hms rfl rfl (hs.2.1 n ms hms).2.2.1 (hs.2.1 n ms hms).2.2.2
  refine ⟨hlookup_hupdate_self hms _, rfl, ?_, ?_⟩
  · intro m hmn
    exact hlookup_hupdate_ne _ _ hmn
  · intro hdn
    obtain ⟨l0, hrep0, hnd0, hiff0⟩ := hinv2.2.2.2.2
    have hlk2 :
        hlookup (hupdate s.heap n { ms with event_flags := ms.event_flags ||| ST_WAKEUP }) n =
          some { ms with event_flags := ms.event_flags ||| ST_WAKEUP } :=
      hlookup_hupdate_self hms _
    have hnl0 : n ∉ l0 :=
      fun hcon => (hiff0 n _ hlk2).mpr hcon (show ms.dirty = Ptr.null from hdn)
    refine ⟨?_, ?_⟩
    · intro l hl
      rw [Represents_unique hl hrep0]
      exact hnl0
    · intro s2 es hpr2 e he hen
      obtain ⟨s2t, est, hprt, hmapt, _, _, _, _, _, _, _, _⟩ :=
        PrintDirtyList_spec _ l0 hinv2 hrep0
      rw [hpr2] at hprt
      have hest : es = est := (congrArg (fun q => Prod.snd q) (Option.some.inj hprt))
      apply hnl0
      rw [← hmapt, ← hest]
      rw [← hen]
      exact List.mem_map_of_mem Entry.node he

/-- Witness for C10 at a concrete state with an unlinked record. -/
theorem C10_wakeup_not_dirty_witness :
    hlookup monState1.heap 1 = some monStream2 ∧
    (hlookup (LpelMonStreamWakeup monState1 1).heap 1 =
      some { monStream2 with event_flags := monStream2.event_flags ||| ST_WAKEUP } ∧
    (LpelMonStreamWakeup monState1 1).task.dirty_list = monState1.task.dirty_list ∧
    (∀ m, m ≠ 1 →
      hlookup (LpelMonStreamWakeup monState1 1).heap m = hlookup monState1.heap m) ∧
    (monStream2.dirty = Ptr.null →
      (∀ l, Represents (LpelMonStreamWakeup monState1 1).heap
          (LpelMonStreamWakeup monState1 1).task.dirty_list l → 1 ∉ l) ∧
      (∀ s2 es, PrintDirtyList (LpelMonStreamWakeup monState1 1) = some (s2, es) →
        ∀ e ∈ es, e.node ≠ 1))) :=
  ⟨rfl, C10_wakeup_not_dirty monState1 1 monStream2 Inv_monState1 rfl⟩

end Lpel
